import Mathlib

/-!
# axiom-guardian: the upgrade orchestration engine

A shallow embedding of `core/guardian.go`, `core/types.go` and the parts of
`repo/config.go` the engine reads, followed by theorems about it.

Conventions of the embedding

* A Go `string` and a Go `[]byte` are both finite byte sequences; both are
  embedded as `Bytes = List Nat` (every element a byte value below 256), so
  that the conversions `[]byte(s)` and `string(b)` are the identity.
* The engine is sequentialised: one call of a method is a function from the
  engine state to a result and a new engine state.
* Everything outside the process (JSON decoding, SHA-256, the chain client,
  the random source, the HTTP mirrors, the file system calls that may fail,
  the shell scripts, the clock) is answered by an environment `Env`.
  What the engine did to the outside world is recorded in `Guardian.trace`.
* Logging is not modelled: it changes neither the state nor the control flow.
-/

namespace AxiomGuardian

deriving instance DecidableEq for Except

/-! ## Byte strings and the library functions used on them -/

/-- A Go `string` or `[]byte`. -/
abbrev Bytes := List Nat

/-- A string literal of the source (all literals of the source are ASCII). -/
def lit (s : String) : Bytes := s.toList.map Char.toNat

/-- One hexadecimal digit as printed by the verb `%x`: `0123456789abcdef`. -/
def hexDigit (n : Nat) : Nat := if n < 10 then 48 + n else 87 + n

/-- The result of `fmt.Sprintf("%x", b)` for a byte slice `b`: two lowercase
hexadecimal digits per byte, high nibble first. -/
def hexEncode : Bytes → Bytes
  | [] => []
  | b :: bs => hexDigit (b / 16 % 16) :: hexDigit (b % 16) :: hexEncode bs

/-- The result of `fmt.Sprintf("%d", n)` for a non-negative integer. -/
def decimal (n : Nat) : Bytes := (Nat.toDigits 10 n).map Char.toNat

/-- Worker of `Split`: `skip` bytes of a separator just matched are still to
be passed over, `acc` is the current piece, reversed. -/
def splitGo (sep : Bytes) : Nat → Bytes → Bytes → List Bytes
  | _, [], acc => [acc.reverse]
  | k + 1, _ :: cs, acc => splitGo sep k cs acc
  | 0, c :: cs, acc =>
    if sep.isPrefixOf (c :: cs) then acc.reverse :: splitGo sep (sep.length - 1) cs []
    else splitGo sep 0 cs (c :: acc)

/-- The function `strings.Split(s, sep)` for a non-empty separator: the pieces
between the non-overlapping occurrences of `sep`, found from left to right. -/
def Split (s sep : Bytes) : List Bytes := splitGo sep 0 s []

/-- The path elements between slashes (byte 47). -/
def components : Bytes → List Bytes
  | [] => [[]]
  | c :: cs =>
    if c = 47 then [] :: components cs
    else match components cs with
      | [] => [[c]]
      | x :: xs => (c :: x) :: xs

/-- Worker of `Clean`: `st` is the stack of kept elements, innermost first. -/
def cleanStack (rooted : Bool) : List Bytes → List Bytes → List Bytes
  | st, [] => st.reverse
  | st, e :: es =>
    if e = [] ∨ e = [46] then cleanStack rooted st es
    else if e = [46, 46] then
      match st with
      | top :: rest =>
        if top = [46, 46] then cleanStack rooted (e :: st) es
        else cleanStack rooted rest es
      | [] => if rooted then cleanStack rooted [] es else cleanStack rooted [e] es
    else cleanStack rooted (e :: st) es

/-- The function `filepath.Clean` on a Unix system: multiple slashes become
one, `.` elements go, an inner `..` goes with the element before it, `..`
at the root goes, and the empty result is `.`. -/
def Clean (p : Bytes) : Bytes :=
  let rooted : Bool := p.head? = some 47
  let out := [47].intercalate (cleanStack rooted [] (components p))
  if rooted then 47 :: out else if out = [] then [46] else out

/-- The function `filepath.Join`: the elements from the first non-empty one
on, joined by slashes and cleaned; the empty string if all are empty. -/
def Join (elems : List Bytes) : Bytes :=
  match elems.dropWhile (fun e => e = []) with
  | [] => []
  | es => Clean ([47].intercalate es)

/-- The function `filepath.Dir` on a Unix system: the path up to and
including its last slash, cleaned. -/
def Dir (p : Bytes) : Bytes := Clean (p.reverse.dropWhile (fun c => c ≠ 47)).reverse

/-- The function `path.Base` (and `filepath.Base` on a Unix system). -/
def Base (p : Bytes) : Bytes :=
  if p = [] then [46]
  else
    let b := ((p.reverse.dropWhile (fun c => c = 47)).takeWhile (fun c => c ≠ 47)).reverse
    if b = [] then [47] else b

/-- The function `binary.BigEndian.Uint64`: the value of the first eight
bytes; it panics (`none`) on a slice shorter than eight bytes. -/
def bigEndianUint64 : Bytes → Option Nat
  | b0 :: b1 :: b2 :: b3 :: b4 :: b5 :: b6 :: b7 :: _ =>
    some (((((((b0 * 256 + b1) * 256 + b2) * 256 + b3) * 256 + b4) * 256 + b5) * 256 + b6)
      * 256 + b7)
  | _ => none

/-- The function `binary.BigEndian.PutUint64`: the eight bytes of a cursor. -/
def putUint64 (c : Nat) : Bytes :=
  [c / 2 ^ 56 % 256, c / 2 ^ 48 % 256, c / 2 ^ 40 % 256, c / 2 ^ 32 % 256,
   c / 2 ^ 24 % 256, c / 2 ^ 16 % 256, c / 2 ^ 8 % 256, c % 256]

/-- The conversion `int64(x)` of a `uint64`: two's complement. -/
def toInt64 (x : Nat) : Int :=
  if x % 2 ^ 64 < 2 ^ 63 then ((x % 2 ^ 64 : Nat) : Int) else ((x % 2 ^ 64 : Nat) : Int) - 2 ^ 64

/-- The method `(*big.Int).Uint64`: the low 64 bits of the absolute value. -/
def bigUint64 (x : Int) : Nat := x.natAbs % 2 ^ 64

/-- The function `fibonacciNumber` of the backoff package, by pairs. -/
def fibPair : Nat → Nat × Nat
  | 0 => (0, 1)
  | n + 1 => ((fibPair n).2, (fibPair n).1 + (fibPair n).2)

/-- The delay in seconds of `backoff.Fibonacci(5*time.Second)` before the
attempt numbered `attempt`. -/
def fibonacciDelay (attempt : Nat) : Nat := 5 * (fibPair attempt).1

/-! ## core/types.go -/

abbrev ProposalStatus := Nat
def Voting : ProposalStatus := 0
def Approved : ProposalStatus := 1
def Rejected : ProposalStatus := 2

abbrev ProposalType := Nat
def CouncilElect : ProposalType := 0
def NodeUpgrade : ProposalType := 1
def NodeAdd : ProposalType := 2
def NodeRemove : ProposalType := 3

abbrev ProposalStrategy := Nat
def SimpleStrategy : ProposalStrategy := 0

/-- The struct `NodeProposal` with its embedded `BaseProposal`; the field
`Type` of the source is `PType` here. -/
structure NodeProposal where
  ID : Nat
  PType : ProposalType
  Strategy : ProposalStrategy
  Proposer : Bytes
  Title : Bytes
  Desc : Bytes
  BlockNumber : Nat
  TotalVotes : Nat
  PassVotes : List Bytes
  RejectVotes : List Bytes
  Status : ProposalStatus
  DownloadUrls : List Bytes
  CheckHash : Bytes
  deriving DecidableEq, Repr

/-! ## repo/config.go -/

structure Subscribe where
  FromBlock : Nat
  ToBlock : Nat
  Addresses : List Bytes
  Topics : List (List Bytes)
  deriving DecidableEq, Repr

structure Config where
  RepoRoot : Bytes
  DialUrl : Bytes
  AxiomPath : Bytes
  Subscribe : Subscribe
  deriving DecidableEq, Repr

/-! ## The durable store -/

/-- The key-value store behind `storage.Storage`. -/
abbrev Store := List (Bytes × Bytes)

/-- The method `DB.Get`: the value under the key, `none` (a nil slice) if the
key is absent. -/
def Store.get (db : Store) (key : Bytes) : Option Bytes := db.lookup key

/-- The method `DB.Put`: the key holds the value afterwards, every other key
is as before. -/
def Store.put (db : Store) (key value : Bytes) : Store :=
  (key, value) :: db.filter (fun kv => kv.1 ≠ key)

/-- The constant `nextFromBlockKey`, the cursor key. -/
def nextFromBlockKey : Bytes := lit "nextFromBlock"

/-- The constant `nextUpgradeVersion`, the applied-version key (the field of
the same name of the engine is `Guardian.nextUpgradeVersion`). -/
def nextUpgradeVersion : Bytes := lit "nextUpgradeVersion"

/-! ## The outside world -/

/-- The kinds of shell command the engine runs with `bash -c`. -/
inductive Cmd
  | version
  | restart
  | tar
  deriving DecidableEq, Repr

/-- What the engine does to the outside world, in the order it does it. -/
inductive Effect
  | filterLogs (fromBlock toBlock : Option Int)
  | subscribe (fromBlock toBlock : Option Int)
  | rand (max : Nat)
  | mkdir (path : Bytes)
  | httpGet (url : Bytes)
  | writeFile (path : Bytes)
  | openRead (path : Bytes)
  | unpackDir (path : Bytes)
  | exec (kind : Cmd) (command : Bytes)
  | sleep (seconds : Nat)
  | dial (url : Bytes)
  deriving DecidableEq, Repr

/-- The errors the engine's functions return. -/
inductive Err
  | filterLogs
  | subscribe
  | rand
  | mkdir
  | httpGet
  | status (code : Nat)
  | openFile
  | copy
  | emptyUrls
  | hashCheck
  | stat
  | exec
  | noSeparator
  | dial
  deriving DecidableEq, Repr

/-- The outcome of `http.Get` followed by `io.Copy` of the body: an error of
the request, or a response with its status code, the bytes of the body that
arrive, and whether the copy ends without an error. -/
inductive HttpResult
  | error
  | response (status : Nat) (body : Bytes) (complete : Bool)
  deriving DecidableEq, Repr

/-- The outcome of `cmd.Output()`: an error (the command could not be run or
exited non-zero), or the standard output of a run that exited zero. -/
inductive ExecResult
  | failed
  | output (out : Bytes)
  deriving DecidableEq, Repr

/-- The answers of the outside world during one cycle. The oracles of one
download attempt are indexed by the attempt number that `retry.Retry` passes
to the action; `stat` and `bash` are indexed by the number of effects the
engine has performed so far. -/
structure Env where
  /-- The function `json.Unmarshal` into a fresh `NodeProposal`. -/
  unmarshal : Bytes → Option NodeProposal
  /-- The SHA-256 digest of a byte sequence. -/
  sha256 : Bytes → Bytes
  /-- The method `Client.FilterLogs` on a query (from-block, to-block,
  addresses, topics): the `Data` of each log, or an error. -/
  filterLogs : Option Int → Option Int → List Bytes → List (List Bytes) → Option (List Bytes)
  /-- The method `Client.SubscribeFilterLogs` on the client with the given
  number: a subscription handle, or an error. -/
  subscribeFilterLogs : Nat → Option Nat
  /-- The call `rand.Int(rand.Reader, max)` of an attempt. -/
  randInt : Nat → Nat → Option Nat
  /-- Whether `os.Stat` finds the staging directory in an attempt. -/
  statStaging : Nat → Bool
  /-- Whether `os.Mkdir` of the staging directory succeeds in an attempt. -/
  mkdirStaging : Nat → Bool
  /-- The request of an attempt to a mirror. -/
  httpGet : Nat → Bytes → HttpResult
  /-- Whether `os.OpenFile` of the staged file succeeds in an attempt. -/
  openFile : Nat → Bytes → Bool
  /-- Whether the staged file can be opened for reading. -/
  openRead : Bytes → Bool
  /-- Whether the staged file can be read to its end. -/
  readAll : Bytes → Bool
  /-- The value of `time.Now().Unix()` when the archive is unpacked. -/
  now : Nat
  /-- Whether `os.Mkdir` of the unpack directory succeeds. -/
  mkdirUnpack : Bytes → Bool
  /-- Whether `os.Stat` finds the file at a path, at a given moment. -/
  stat : Nat → Bytes → Bool
  /-- The run of `bash -c command` at a given moment. -/
  bash : Nat → Bytes → ExecResult
  /-- The call `ethclient.DialContext` of a reconnect attempt: the number of
  the new client, or an error. -/
  dial : Nat → Option Nat

/-! ## The engine state -/

/-- The struct `Guardian`, with the staged files and the trace of effects. -/
structure Guardian where
  Client : Nat
  DB : Store
  Config : Config
  FromBlock : Option Int
  ToBlock : Option Int
  Addresses : List Bytes
  Topics : List (List Bytes)
  LogSub : Option Nat
  nextUpgradeProposal : Option NodeProposal
  nextUpgradeVersion : Bytes
  /-- The content of the files of the staging directory, by path. -/
  files : Store
  /-- The effects performed so far, oldest first. -/
  trace : List Effect
  deriving DecidableEq, Repr

/-- Record one effect. -/
def Guardian.emit (g : Guardian) (e : Effect) : Guardian :=
  { g with trace := g.trace ++ [e] }

/-- The number of effects performed so far: the moment of the next one. -/
def Guardian.clock (g : Guardian) : Nat := g.trace.length

/-- The function `NewGuardian`, for a store that opened. -/
def NewGuardian (config : Config) (client : Nat) (db : Store) : Guardian :=
  { Client := client
    DB := db
    Config := config
    FromBlock :=
      if config.Subscribe.FromBlock ≠ 0 then some (toInt64 config.Subscribe.FromBlock) else none
    ToBlock :=
      if config.Subscribe.ToBlock ≠ 0 then some (toInt64 config.Subscribe.ToBlock) else none
    Addresses := config.Subscribe.Addresses
    Topics := config.Subscribe.Topics
    LogSub := none
    nextUpgradeProposal := none
    nextUpgradeVersion := []
    files := []
    trace := [] }

/-! ## core/guardian.go: event handling and backfill -/

/-- The method `handleProposalLog` on the `Data` of a log. -/
def handleProposalLog (env : Env) (g : Guardian) (data : Bytes) : Guardian :=
  match env.unmarshal data with
  | none => g
  | some proposal =>
    if proposal.PType = NodeUpgrade ∧ proposal.Status = Approved then
      { g with nextUpgradeProposal := some proposal }
    else g

/-- The method `getNewestFromBlock`. It panics (`none`) when the stored cursor
is shorter than eight bytes, or when a cursor is stored and `FromBlock` is
nil. -/
def getNewestFromBlock (g : Guardian) : Option (Option Int × Guardian) :=
  match g.DB.get nextFromBlockKey with
  | none => some (g.FromBlock, g)
  | some data =>
    match bigEndianUint64 data, g.FromBlock with
    | some nextFromBlock, some fromBlock =>
      if nextFromBlock > bigUint64 fromBlock then
        some (some (toInt64 nextFromBlock), { g with FromBlock := some (toInt64 nextFromBlock) })
      else some (g.FromBlock, g)
    | _, _ => none

/-- The method `fetchHistoryLog`; `none` is a panic of `getNewestFromBlock`. -/
def fetchHistoryLog (env : Env) (g : Guardian) : Option (Option Err × Guardian) :=
  match getNewestFromBlock g with
  | none => none
  | some r =>
    let fromBlock := r.1
    let g1 := r.2.emit (Effect.filterLogs fromBlock r.2.ToBlock)
    match env.filterLogs fromBlock r.2.ToBlock r.2.Addresses r.2.Topics with
    | none => some (some Err.filterLogs, g1)
    | some logs => some (none, logs.foldl (handleProposalLog env) g1)

/-- The method `subscribeLog`. -/
def subscribeLog (env : Env) (g : Guardian) : Option Err × Guardian :=
  let g1 := g.emit (Effect.subscribe g.FromBlock g.ToBlock)
  match env.subscribeFilterLogs g.Client with
  | some sub => (none, { g1 with LogSub := some sub })
  | none => (some Err.subscribe, { g1 with LogSub := none })

/-! ## core/guardian.go: the version probe -/

/-- The parsing at the end of `getAxiomLedgerCurrentVersion`: split the output
at `": "`, fail on fewer than two pieces, split the second piece at the
newline and return its first piece. -/
def parseVersion (out : Bytes) : Except Err Bytes :=
  match Split out (lit ": ") with
  | _ :: second :: _ => .ok ((Split second (lit "\n")).headD [])
  | _ => .error Err.noSeparator

/-- The method `getAxiomLedgerCurrentVersion`. -/
def getAxiomLedgerCurrentVersion (env : Env) (g : Guardian) (p : Bytes) :
    Except Err Bytes × Guardian :=
  let dir := Dir p
  if env.stat g.clock (Join [dir, lit "version.sh"]) = false then (.error Err.stat, g)
  else
    let execCmd := lit "cd " ++ dir ++ lit " && bash version.sh"
    let g1 := g.emit (Effect.exec Cmd.version execCmd)
    match env.bash g.clock execCmd with
    | .failed => (.error Err.exec, g1)
    | .output out => (parseVersion out, g1)

/-- The method `getNextUpgradeVersion`: `string(nil)` is the empty string. -/
def getNextUpgradeVersion (g : Guardian) : Bytes × Guardian :=
  let versionData := (g.DB.get nextUpgradeVersion).getD []
  (versionData, { g with nextUpgradeVersion := versionData })

/-! ## The retry library -/

/-- Modelled from the spec: the package `github.com/Rican7/retry` is not among
the sources. The loop of `retry.Retry(action, strategy.Limit(limit),
strategy.Backoff(algorithm))`: the action runs for attempt 0, and again while
it returned an error and the attempt number is below the limit; before every
attempt but the first the backoff strategy waits. `remaining` is the limit
minus the attempt number. -/
def retryLoop {σ : Type} (action : Nat → σ → Option Err × σ) (wait : Nat → σ → σ) :
    Nat → Nat → Option Err → σ → Option Err × σ
  | 0, _, err, s => (err, s)
  | remaining + 1, attempt, err, s =>
    if attempt = 0 ∨ err.isSome then
      let r := action attempt (if 0 < attempt then wait attempt s else s)
      retryLoop action wait remaining (attempt + 1) r.1 r.2
    else (err, s)

/-- Modelled from the spec: the function `retry.Retry` with the strategies
`Limit(limit)` and `Backoff`, see `retryLoop`. -/
def Retry {σ : Type} (action : Nat → σ → Option Err × σ) (wait : Nat → σ → σ) (limit : Nat)
    (s : σ) : Option Err × σ :=
  retryLoop action wait limit 0 none s

/-- The wait of `strategy.Backoff(backoff.Fibonacci(5*time.Second))`. -/
def backoffWait {α : Type} (attempt : Nat) (s : α × Guardian) : α × Guardian :=
  (s.1, s.2.emit (Effect.sleep (fibonacciDelay attempt)))

/-! ## core/guardian.go: download, verify, unpack -/

/-- The closure `handle` of `download`, one fetch attempt. The state is the
captured variable `filePath` and the engine. The staged file is opened with
`O_RDWR|O_CREATE` and without `O_TRUNC`: the body overwrites the file from
its start and what the file held beyond the body stays. -/
def handle (env : Env) (downloadUrls : List Bytes) (attempt : Nat) (s : Bytes × Guardian) :
    Option Err × (Bytes × Guardian) :=
  let maxInt := downloadUrls.length
  let g1 := s.2.emit (Effect.rand maxInt)
  match env.randInt attempt maxInt with
  | none => (some Err.rand, (s.1, g1))
  | some index =>
    let downloadUrl := downloadUrls.getD (index % maxInt) []
    let downloadPath := Join [g1.Config.RepoRoot, lit "download"]
    let needMkdir := env.statStaging attempt = false
    let g2 := if needMkdir then g1.emit (Effect.mkdir downloadPath) else g1
    if needMkdir ∧ env.mkdirStaging attempt = false then (some Err.mkdir, (s.1, g2))
    else
      let g3 := g2.emit (Effect.httpGet downloadUrl)
      match env.httpGet attempt downloadUrl with
      | .error => (some Err.httpGet, (s.1, g3))
      | .response status body complete =>
        if status ≠ 200 then (some (Err.status status), (s.1, g3))
        else
          let filename := Base downloadUrl
          let filePath := Join [downloadPath, filename]
          if env.openFile attempt filePath = false then (some Err.openFile, (filePath, g3))
          else
            let old := (g3.files.get filePath).getD []
            let g4 := { g3.emit (Effect.writeFile filePath) with
              files := g3.files.put filePath (body ++ old.drop body.length) }
            if complete = false then (some Err.copy, (filePath, g4))
            else (none, (filePath, g4))

/-- The method `checkFileHash`. -/
def checkFileHash (env : Env) (g : Guardian) (filePath hash : Bytes) : Bool × Guardian :=
  let g1 := g.emit (Effect.openRead filePath)
  match g.files.get filePath with
  | none => (false, g1)
  | some content =>
    if env.openRead filePath = false then (false, g1)
    else if env.readAll filePath = false then (false, g1)
    else
      let sum := hexEncode (env.sha256 content)
      if sum ≠ hash then (false, g1) else (true, g1)

/-- The method `decompress`. -/
def decompress (env : Env) (g : Guardian) (p : Bytes) : Bytes × Guardian :=
  let dir := Dir p
  let filename := Base p
  let dstDirName := lit "axiom-" ++ decimal env.now
  let dstPath := Join [dir, dstDirName]
  let g1 := g.emit (Effect.unpackDir dstPath)
  if env.mkdirUnpack dstPath = false then ([], g1)
  else
    let execCmd := lit "cd " ++ dir ++ lit " && tar -zxvf " ++ filename ++ lit " -C ./" ++ dstDirName
    let g2 := g1.emit (Effect.exec Cmd.tar execCmd)
    match env.bash g1.clock execCmd with
    | .failed => (dstPath, g2)
    | .output _ => (dstPath, g2)

/-- The method `download`. -/
def download (env : Env) (g : Guardian) : Except Err Bytes × Guardian :=
  match g.nextUpgradeProposal with
  | none => (.ok [], g)
  | some proposal =>
    let downloadUrls := proposal.DownloadUrls
    let checkHash := proposal.CheckHash
    if downloadUrls.length ≤ 0 then (.error Err.emptyUrls, g)
    else
      let r := Retry (handle env downloadUrls) backoffWait 5 ([], g)
      match r.1 with
      | some e => (.error e, r.2.2)
      | none =>
        let filePath := r.2.1
        let c := checkFileHash env r.2.2 filePath checkHash
        if c.1 = false then (.error Err.hashCheck, c.2)
        else
          let d := decompress env c.2 filePath
          let ledgerPath := d.1
          let v := getAxiomLedgerCurrentVersion env d.2 (Join [ledgerPath, lit "axiom"])
          match v.1 with
          | .error e => (.error e, v.2)
          | .ok nextUpgradeVersion =>
            (.ok ledgerPath,
              { v.2 with nextUpgradeVersion := nextUpgradeVersion, nextUpgradeProposal := none })

/-! ## core/guardian.go: install and reconnect -/

/-- The closure `action` of `reconnect`, one dial attempt. The state is the
local variable `client` and the engine. -/
def dialAction (env : Env) (attempt : Nat) (s : Option Nat × Guardian) :
    Option Err × (Option Nat × Guardian) :=
  let g1 := s.2.emit (Effect.dial s.2.Config.DialUrl)
  match env.dial attempt with
  | none => (some Err.dial, (none, g1))
  | some client => (none, (some client, g1))

/-- The method `reconnect`. -/
def reconnect (env : Env) (g : Guardian) : Option Err × Guardian :=
  let r := Retry (dialAction env) backoffWait 5 (none, g)
  match r.1 with
  | some e => (some e, r.2.2)
  | none => subscribeLog env { r.2.2 with Client := r.2.1.getD r.2.2.Client }

/-- The method `restart`. -/
def restart (env : Env) (g : Guardian) (downloadFilePath : Bytes) : Option Err × Guardian :=
  if g.nextUpgradeVersion = [] then (none, g)
  else if env.stat g.clock (Join [g.Config.AxiomPath, lit "restart.sh"]) = false then
    (some Err.stat, g)
  else
    let execCmd := lit "cd " ++ g.Config.AxiomPath ++ lit " && bash restart.sh " ++
      Join [downloadFilePath, lit "axiom"]
    let g1 := g.emit (Effect.exec Cmd.restart execCmd)
    match env.bash g.clock execCmd with
    | .failed => (some Err.exec, g1)
    | .output _ =>
      reconnect env { g1 with DB := g1.DB.put nextUpgradeVersion g1.nextUpgradeVersion }

/-- How a cycle ends: the return points of `downloadAndRestart`. -/
inductive CycleResult
  | versionError (e : Err)
  | upToDate
  | downloadError (e : Err)
  | restartError (e : Err)
  | done
  deriving DecidableEq, Repr

/-- The method `downloadAndRestart`, one cycle. -/
def downloadAndRestart (env : Env) (g : Guardian) : CycleResult × Guardian :=
  let c := getAxiomLedgerCurrentVersion env g (Join [g.Config.AxiomPath, lit "axiom"])
  match c.1 with
  | .error e => (.versionError e, c.2)
  | .ok currentVersion =>
    let n := getNextUpgradeVersion c.2
    let newVersion := n.1
    if newVersion ≠ [] ∧ currentVersion = newVersion then (.upToDate, n.2)
    else
      let d := download env n.2
      match d.1 with
      | .error e => (.downloadError e, d.2)
      | .ok downloadFilePath =>
        let r := restart env d.2 downloadFilePath
        match r.1 with
        | some e => (.restartError e, r.2)
        | none => (.done, r.2)

/-! ## core/guardian.go: the event-consumption loop -/

/-- What the `select` of `listenEvents` receives: the context is done, or a
log arrives on `LogChan`. -/
inductive Signal
  | ctxDone
  | log (data : Bytes)
  deriving DecidableEq, Repr

/-- One iteration of the `for` loop of `listenEvents` on the signal its
`select` receives. The Boolean says whether the loop iterates again: the
case of the done context only logs `context done`, the case of a log starts
the handler, and neither returns or breaks. The handler (`handleProposalLog`,
then `downloadAndRestart`) is a goroutine in the source; here it runs to its
end before the next signal. -/
def listenStep (env : Env) (g : Guardian) : Signal → Bool × Guardian
  | .ctxDone => (true, g)
  | .log data => (true, (downloadAndRestart env (handleProposalLog env g data)).2)

/-- The method `listenEvents` on the signals its `select` receives, in order:
whether the loop is still running after them, and the engine state. -/
def listenEvents (env : Env) (g : Guardian) : List Signal → Bool × Guardian
  | [] => (true, g)
  | s :: rest =>
    if (listenStep env g s).1 then listenEvents env (listenStep env g s).2 rest
    else (false, (listenStep env g s).2)

/-! ## Observations on the trace -/

/-- The number of effects performed so far that satisfy `p`. -/
def Guardian.count (g : Guardian) (p : Effect → Bool) : Nat := g.trace.countP p

/-- A network fetch: `http.Get`. -/
def isFetch : Effect → Bool
  | .httpGet _ => true
  | _ => false

/-- The start of a fetch attempt: every run of `handle` starts with the draw
of a mirror. -/
def isAttempt : Effect → Bool
  | .rand _ => true
  | _ => false

/-- An invocation of the restart procedure. -/
def isRestart : Effect → Bool
  | .exec .restart _ => true
  | _ => false

/-- The creation of an unpack directory by `decompress`. -/
def isUnpack : Effect → Bool
  | .unpackDir _ => true
  | _ => false

/-- The start of a hash verification: `checkFileHash` opens the file. -/
def isHashCheck : Effect → Bool
  | .openRead _ => true
  | _ => false

def fetches (g : Guardian) : Nat := g.count isFetch

def attempts (g : Guardian) : Nat := g.count isAttempt

def restarts (g : Guardian) : Nat := g.count isRestart

def unpacks (g : Guardian) : Nat := g.count isUnpack

def hashChecks (g : Guardian) : Nat := g.count isHashCheck

/-! ## Vocabulary of the specification -/

/-- The proposal a payload brings to the pending-upgrade slot: the payload
decodes, to a proposal of kind node-upgrade with status approved. -/
def actionable (env : Env) (data : Bytes) : Option NodeProposal :=
  (env.unmarshal data).filter (fun p => p.PType = NodeUpgrade ∧ p.Status = Approved)

/-- The proposal of the last actionable payload of a sequence. -/
def lastActionable (env : Env) (logs : List Bytes) : Option NodeProposal :=
  (logs.filterMap (actionable env)).getLast?

/-- A byte of the alphabet `0123456789abcdef`. -/
def isLowerHex (c : Nat) : Bool := (48 ≤ c && c ≤ 57) || (97 ≤ c && c ≤ 102)

/-- The engine state without the staged files and the trace. -/
def Guardian.core (g : Guardian) : Guardian := { g with files := [], trace := [] }

/-- The state `g'` has the trace of `g` followed by effects that all satisfy `S`. -/
def Appends (S : Effect → Bool) (g g' : Guardian) : Prop :=
  ∃ es, g'.trace = g.trace ++ es ∧ ∀ e ∈ es, S e = true

/-- The effects of the fetch stage: of `handle` and of the backoff. -/
def fetchEffect : Effect → Bool
  | .rand _ => true
  | .mkdir _ => true
  | .httpGet _ => true
  | .writeFile _ => true
  | .sleep _ => true
  | _ => false

/-- The outcome of the fetch attempt numbered `k`: the error `handle` returns,
`none` for a success. It depends on the engine only through its
configuration. -/
def attemptOutcome (env : Env) (g : Guardian) (urls : List Bytes) (k : Nat) : Option Err :=
  (handle env urls k ([], g)).1

/-- The first of the attempts 0, ..., 4 that succeeds, if any. -/
def firstSuccess (env : Env) (g : Guardian) (urls : List Bytes) : Option Nat :=
  (List.range 5).find? (fun k => attemptOutcome env g urls k = none)

/-- The fetch stage of `download`: the call of `retry.Retry`. -/
def fetched (env : Env) (g : Guardian) (urls : List Bytes) : Option Err × (Bytes × Guardian) :=
  Retry (handle env urls) backoffWait 5 ([], g)

/-- The effects of `download` after the hash verification. -/
def unpackEffect : Effect → Bool
  | .unpackDir _ => true
  | .exec .tar _ => true
  | .exec .version _ => true
  | _ => false

/-- The effects of `download`. -/
def downloadEffect : Effect → Bool
  | .openRead _ => true
  | e => fetchEffect e || unpackEffect e

/-- The state in which a cycle calls `download`: the running service has been
probed and the applied-version record has been read. -/
def beforeDownload (env : Env) (g : Guardian) : Guardian :=
  (getNextUpgradeVersion
    (getAxiomLedgerCurrentVersion env g (Join [g.Config.AxiomPath, lit "axiom"])).2).2

/-- The digest of the staged artifact as `checkFileHash` computes it: the
lowercase hexadecimal SHA-256 of the file the fetch stage leaves at
`filePath`, `none` if there is no such file. -/
def stagedDigest (env : Env) (g : Guardian) (urls : List Bytes) : Option Bytes :=
  ((fetched env g urls).2.2.files.get (fetched env g urls).2.1).map
    (fun content => hexEncode (env.sha256 content))

/-- The first of the attempts 0, ..., 4 whose random pick, reduced modulo the
two mirrors, selects the mirror numbered `w`. -/
def firstPick (picks : Nat → Nat) (w : Nat) : Option Nat :=
  (List.range 5).find? (fun k => picks k % 2 = w)

/-- The path at which `handle` stages the artifact of a mirror. -/
def stagedPath (g : Guardian) (url : Bytes) : Bytes :=
  Join [Join [g.Config.RepoRoot, lit "download"], Base url]

/-- The effects of `reconnect`. -/
def reconnectEffect : Effect → Bool
  | .dial _ => true
  | .sleep _ => true
  | .subscribe _ _ => true
  | _ => false

/-- What follows the first occurrence of `sep` in a byte string, `none` if
`sep` does not occur. -/
def afterFirst (sep : Bytes) : Bytes → Option Bytes
  | [] => if sep.isPrefixOf [] then some [] else none
  | c :: cs => if sep.isPrefixOf (c :: cs) then some ((c :: cs).drop sep.length) else afterFirst sep cs

/-- What precedes the first occurrence of `sep` in a byte string, all of it if
`sep` does not occur. -/
def upTo (sep : Bytes) : Bytes → Bytes
  | [] => []
  | c :: cs => if sep.isPrefixOf (c :: cs) then [] else c :: upTo sep cs

/-- The version as the specification describes it: the substring that starts
right after the first `": "` and ends right before the next newline, or at
the end of the output. -/
def specVersion (out : Bytes) : Option Bytes :=
  (afterFirst (lit ": ") out).map (upTo (lit "\n"))

/-- The effects of `restart`. -/
def restartEffect : Effect → Bool
  | .exec .restart _ => true
  | e => reconnectEffect e

/-! ## Fixtures: concrete proposals, configurations and environments -/

/-- The proposal of `generateLog` in `core/client.go`, with short mirrors. -/
def mockProposal : NodeProposal :=
  { ID := 1, PType := NodeUpgrade, Strategy := SimpleStrategy, Proposer := lit "0xff",
    Title := lit "mock title", Desc := lit "mock desc", BlockNumber := 1000, TotalVotes := 4,
    PassVotes := [lit "0x11", lit "0x22", lit "0x33"], RejectVotes := [], Status := Approved,
    DownloadUrls := [lit "http://m1/axiom.tgz", lit "http://m2/axiom.tgz"],
    CheckHash := lit "0a0b" }

def mockConfig : Config :=
  { RepoRoot := lit "/g", DialUrl := lit "ws://n", AxiomPath := lit "/ax",
    Subscribe := { FromBlock := 1, ToBlock := 0, Addresses := [], Topics := [] } }

/-- An environment in which everything works: payload `[1]` decodes to the
mock proposal, the first mirror answers 500 and the second serves the
archive `[1, 2, 3]`, whose digest is the one the mock proposal expects; the
first script run (the probe of the running service) reports the version
`running`, every later one reports `v2` on its first line. -/
def mockEnv (running : Bytes) (picks : Nat → Nat) : Env :=
  { unmarshal := fun data => if data = [1] then some mockProposal else none
    sha256 := fun content => if content = [1, 2, 3] then [10, 11] else [0]
    filterLogs := fun _ _ _ _ => some [[1]]
    subscribeFilterLogs := fun client => some client
    randInt := fun attempt _ => some (picks attempt)
    statStaging := fun _ => true
    mkdirStaging := fun _ => true
    httpGet := fun _ url =>
      if url = lit "http://m2/axiom.tgz" then .response 200 [1, 2, 3] true
      else .response 500 [] true
    openFile := fun _ _ => true
    openRead := fun _ => true
    readAll := fun _ => true
    now := 17
    mkdirUnpack := fun _ => true
    stat := fun _ _ => true
    bash := fun t _ =>
      if t = 0 then .output (lit "axiom version: " ++ running ++ lit "\n")
      else .output (lit "axiom version: v2\ncommit: 0\n")
    dial := fun attempt => some (attempt + 1) }

/-- The engine after start-up with the mock configuration and a given store
and pending-upgrade slot. -/
def mockGuardian (db : Store) (slot : Option NodeProposal) : Guardian :=
  { NewGuardian mockConfig 0 db with nextUpgradeProposal := slot }

/-- The mock environment with the working mirror always picked, where the
archive the proposal expects is `[1, 2, 3, 4, 5]` (digest `0a0b`) and the
mirror serves only its first three bytes (digest `00`). -/
def truncatedEnv : Env :=
  { mockEnv (lit "v1") (fun _ => 1) with
    sha256 := fun content => if content = [1, 2, 3, 4, 5] then [10, 11] else [0] }

/-- The mock engine whose staging directory still holds the full archive
`[1, 2, 3, 4, 5]` at the path of the staged file, as an earlier download of
the same file name leaves it. -/
def staleGuardian : Guardian :=
  { mockGuardian [] (some mockProposal) with
    files := [(lit "/g/download/axiom.tgz", [1, 2, 3, 4, 5])] }

/-! ## Lemmas: the state outside the trace -/

@[simp] theorem emit_DB (g : Guardian) (e : Effect) : (g.emit e).DB = g.DB := rfl

@[simp] theorem emit_Config (g : Guardian) (e : Effect) : (g.emit e).Config = g.Config := rfl

@[simp] theorem emit_files (g : Guardian) (e : Effect) : (g.emit e).files = g.files := rfl

@[simp] theorem emit_slot (g : Guardian) (e : Effect) :
    (g.emit e).nextUpgradeProposal = g.nextUpgradeProposal := rfl

@[simp] theorem emit_version (g : Guardian) (e : Effect) :
    (g.emit e).nextUpgradeVersion = g.nextUpgradeVersion := rfl

@[simp] theorem emit_trace (g : Guardian) (e : Effect) : (g.emit e).trace = g.trace ++ [e] := rfl

@[simp] theorem emit_count (g : Guardian) (e : Effect) (p : Effect → Bool) :
    (g.emit e).count p = g.count p + (if p e then 1 else 0) := by
  simp [Guardian.count, List.countP_append, List.countP_cons]

/-! ## Lemmas: event handling -/

theorem handleProposalLog_of_none (env : Env) (g : Guardian) (data : Bytes)
    (h : actionable env data = none) : handleProposalLog env g data = g := by
  unfold actionable at h
  unfold handleProposalLog
  cases hu : env.unmarshal data with
  | none => rfl
  | some p =>
    rw [hu] at h
    simp [Option.filter] at h
    simp only
    rw [if_neg]
    intro hc
    exact absurd hc.2 (h hc.1)

theorem handleProposalLog_of_some (env : Env) (g : Guardian) (data : Bytes) (p : NodeProposal)
    (h : actionable env data = some p) :
    handleProposalLog env g data = { g with nextUpgradeProposal := some p } := by
  unfold actionable at h
  unfold handleProposalLog
  cases hu : env.unmarshal data with
  | none => rw [hu] at h; simp [Option.filter] at h
  | some q =>
    rw [hu] at h
    simp [Option.filter] at h
    obtain ⟨hq, rfl⟩ := h
    simp [hq.1, hq.2]

theorem foldl_handleProposalLog (env : Env) (logs : List Bytes) (g : Guardian) :
    logs.foldl (handleProposalLog env) g =
      { g with nextUpgradeProposal :=
          match lastActionable env logs with
          | some p => some p
          | none => g.nextUpgradeProposal } := by
  induction logs generalizing g with
  | nil => rfl
  | cons d ds ih =>
    rw [List.foldl_cons, ih]
    unfold lastActionable
    cases hd : actionable env d with
    | none =>
      rw [handleProposalLog_of_none env g d hd]
      simp [List.filterMap_cons, hd]
    | some p =>
      rw [handleProposalLog_of_some env g d p hd]
      simp only [List.filterMap_cons, hd]
      cases hl : (List.filterMap (actionable env) ds).getLast? with
      | none =>
        have : List.filterMap (actionable env) ds = [] := List.getLast?_eq_none_iff.mp hl
        simp [this]
      | some q =>
        have : (p :: List.filterMap (actionable env) ds).getLast? = some q := by
          rw [List.getLast?_cons, hl]; rfl
        simp [this]

/-! ## Lemmas: the version probe and the version check -/

theorem probe_state (env : Env) (g : Guardian) (p : Bytes) :
    (getAxiomLedgerCurrentVersion env g p).2 = g ∨
      (getAxiomLedgerCurrentVersion env g p).2 =
        g.emit (Effect.exec Cmd.version (lit "cd " ++ Dir p ++ lit " && bash version.sh")) := by
  unfold getAxiomLedgerCurrentVersion
  simp only
  split
  · exact Or.inl rfl
  · split <;> exact Or.inr rfl

theorem probe_count (env : Env) (g : Guardian) (p : Bytes) (q : Effect → Bool)
    (hq : ∀ c, q (Effect.exec Cmd.version c) = false) :
    (getAxiomLedgerCurrentVersion env g p).2.count q = g.count q := by
  rcases probe_state env g p with h | h <;> rw [h]
  simp [hq]

theorem probe_DB (env : Env) (g : Guardian) (p : Bytes) :
    (getAxiomLedgerCurrentVersion env g p).2.DB = g.DB := by
  rcases probe_state env g p with h | h <;> rw [h]
  rfl

theorem probe_slot (env : Env) (g : Guardian) (p : Bytes) :
    (getAxiomLedgerCurrentVersion env g p).2.nextUpgradeProposal = g.nextUpgradeProposal := by
  rcases probe_state env g p with h | h <;> rw [h]
  rfl

theorem probe_Config (env : Env) (g : Guardian) (p : Bytes) :
    (getAxiomLedgerCurrentVersion env g p).2.Config = g.Config := by
  rcases probe_state env g p with h | h <;> rw [h]
  rfl

theorem up_to_date_cycle (env : Env) (g : Guardian) (v : Bytes)
    (hprobe : (getAxiomLedgerCurrentVersion env g (Join [g.Config.AxiomPath, lit "axiom"])).1 = .ok v)
    (hstore : (getNextUpgradeVersion g).1 = v) (hne : v ≠ []) :
    downloadAndRestart env g =
      (CycleResult.upToDate,
        { (getAxiomLedgerCurrentVersion env g (Join [g.Config.AxiomPath, lit "axiom"])).2 with
          nextUpgradeVersion := v }) := by
  unfold downloadAndRestart
  simp only [hprobe]
  have hn : (getNextUpgradeVersion
      (getAxiomLedgerCurrentVersion env g (Join [g.Config.AxiomPath, lit "axiom"])).2).1 = v := by
    simp only [getNextUpgradeVersion, probe_DB] at hstore ⊢
    exact hstore
  rw [if_pos]
  · simp only [getNextUpgradeVersion, probe_DB] at hstore ⊢
    rw [hstore]
  · rw [hn]; exact ⟨hne, rfl⟩

/-! ## Lemmas: the hexadecimal encoding -/

theorem hexDigit_isLowerHex (n : Nat) (h : n < 16) : isLowerHex (hexDigit n) = true := by
  unfold isLowerHex hexDigit
  split <;> simp <;> omega

theorem hexEncode_length (bs : Bytes) : (hexEncode bs).length = 2 * bs.length := by
  induction bs with
  | nil => rfl
  | cons b bs ih => simp [hexEncode, ih]; omega

theorem hexEncode_isLowerHex (bs : Bytes) : ∀ c ∈ hexEncode bs, isLowerHex c = true := by
  induction bs with
  | nil => simp [hexEncode]
  | cons b bs ih =>
    intro c hc
    simp only [hexEncode, List.mem_cons] at hc
    rcases hc with rfl | rfl | hc
    · exact hexDigit_isLowerHex _ (Nat.mod_lt _ (by decide))
    · exact hexDigit_isLowerHex _ (Nat.mod_lt _ (by decide))
    · exact ih c hc

theorem hexDigit_injective (m n : Nat) (hm : m < 16) (hn : n < 16)
    (h : hexDigit m = hexDigit n) : m = n := by
  unfold hexDigit at h
  split at h <;> split at h <;> omega

theorem hexEncode_injective (xs ys : Bytes) (hx : ∀ b ∈ xs, b < 256) (hy : ∀ b ∈ ys, b < 256)
    (h : hexEncode xs = hexEncode ys) : xs = ys := by
  induction xs generalizing ys with
  | nil =>
    cases ys with
    | nil => rfl
    | cons y ys => simp [hexEncode] at h
  | cons x xs ih =>
    cases ys with
    | nil => simp [hexEncode] at h
    | cons y ys =>
      simp only [hexEncode, List.cons.injEq] at h
      obtain ⟨h1, h2, h3⟩ := h
      have e1 := hexDigit_injective _ _ (Nat.mod_lt _ (by decide)) (Nat.mod_lt _ (by decide)) h1
      have e2 := hexDigit_injective _ _ (Nat.mod_lt _ (by decide)) (Nat.mod_lt _ (by decide)) h2
      have bx : x < 256 := hx x (List.mem_cons_self _ _)
      have bY : y < 256 := hy y (List.mem_cons_self _ _)
      have exy : x = y := by omega
      rw [exy, ih ys (fun b hb => hx b (List.mem_cons_of_mem _ hb))
        (fun b hb => hy b (List.mem_cons_of_mem _ hb)) h3]

/-! ## Lemmas: traces, the retry loop, the fetch stage, download, the cycle -/

theorem Appends.refl (S : Effect → Bool) (g : Guardian) : Appends S g g :=
  ⟨[], by simp, by simp⟩

theorem Appends.of_trace_eq (S : Effect → Bool) (g g' : Guardian) (h : g'.trace = g.trace) :
    Appends S g g' :=
  ⟨[], by simp [h], by simp⟩

theorem Appends.trans {S : Effect → Bool} {g1 g2 g3 : Guardian}
    (h12 : Appends S g1 g2) (h23 : Appends S g2 g3) : Appends S g1 g3 := by
  obtain ⟨es, he, hs⟩ := h12
  obtain ⟨fs, hf, ht⟩ := h23
  refine ⟨es ++ fs, by rw [hf, he, List.append_assoc], ?_⟩
  intro e hmem
  rcases List.mem_append.mp hmem with h | h
  · exact hs e h
  · exact ht e h

theorem Appends.mono {S T : Effect → Bool} {g g' : Guardian} (hST : ∀ e, S e = true → T e = true)
    (h : Appends S g g') : Appends T g g' := by
  obtain ⟨es, he, hs⟩ := h
  exact ⟨es, he, fun e hmem => hST e (hs e hmem)⟩

theorem Appends.emit (S : Effect → Bool) (g : Guardian) (e : Effect) (h : S e = true) :
    Appends S g (g.emit e) :=
  ⟨[e], rfl, by simpa using h⟩

theorem Appends.count {S : Effect → Bool} {g g' : Guardian} (h : Appends S g g')
    (p : Effect → Bool) (hp : ∀ e, S e = true → p e = false) : g'.count p = g.count p := by
  obtain ⟨es, he, hs⟩ := h
  unfold Guardian.count
  rw [he, List.countP_append]
  have : List.countP p es = 0 := by
    rw [List.countP_eq_zero]
    intro e hmem
    simp [hp e (hs e hmem)]
  omega

theorem handle_core (env : Env) (urls : List Bytes) (k : Nat) (s : Bytes × Guardian) :
    (handle env urls k s).2.2.core = s.2.core := by
  unfold handle
  dsimp only
  repeat' split
  all_goals simp [Guardian.core, Guardian.emit]

theorem Appends.emit_right {S : Effect → Bool} {g g' : Guardian} {e : Effect}
    (he : S e = true) (h : Appends S g g') : Appends S g (g'.emit e) :=
  Appends.trans h (Appends.emit S g' e he)

theorem Appends.setFiles {S : Effect → Bool} {g g' : Guardian} {f : Store}
    (h : Appends S g g') : Appends S g { g' with files := f } := h

theorem handle_appends (env : Env) (urls : List Bytes) (k : Nat) (s : Bytes × Guardian) :
    Appends fetchEffect s.2 (handle env urls k s).2.2 := by
  unfold handle
  dsimp only
  repeat' split
  all_goals simp [Appends, Guardian.emit, fetchEffect]

theorem handle_attempts (env : Env) (urls : List Bytes) (k : Nat) (s : Bytes × Guardian) :
    (handle env urls k s).2.2.count isAttempt = s.2.count isAttempt + 1 := by
  unfold handle
  dsimp only
  repeat' split
  all_goals simp [Guardian.count, Guardian.emit, List.countP_append, List.countP_cons, isAttempt]

theorem handle_fst_congr (env : Env) (urls : List Bytes) (k : Nat) (s s' : Bytes × Guardian)
    (h : s.2.Config = s'.2.Config) : (handle env urls k s).1 = (handle env urls k s').1 := by
  unfold handle
  simp only [emit_Config, h]
  repeat' split
  all_goals rfl

theorem retryLoop_invariant {σ : Type} (action : Nat → σ → Option Err × σ) (wait : Nat → σ → σ)
    (P : σ → Prop) (hact : ∀ k s, P s → P (action k s).2) (hwait : ∀ k s, P s → P (wait k s)) :
    ∀ (remaining attempt : Nat) (err : Option Err) (s : σ), P s →
      P (retryLoop action wait remaining attempt err s).2 := by
  intro remaining
  induction remaining with
  | zero => intro attempt err s hs; exact hs
  | succ r ih =>
    intro attempt err s hs
    unfold retryLoop
    split
    · apply ih
      apply hact
      split
      · exact hwait _ _ hs
      · exact hs
    · exact hs

theorem retryLoop_stop {σ : Type} (action : Nat → σ → Option Err × σ) (wait : Nat → σ → σ)
    (remaining attempt : Nat) (s : σ) :
    retryLoop action wait remaining (attempt + 1) none s = (none, s) := by
  cases remaining with
  | zero => rfl
  | succ r => simp [retryLoop]

theorem retryLoop_first_success {σ : Type} (action : Nat → σ → Option Err × σ)
    (wait : Nat → σ → σ) (I : Nat → σ → Prop) (out : Nat → Option Err) (k : Nat)
    (hstep : ∀ j s, j ≤ k → I j s →
      (action j (if 0 < j then wait j s else s)).1 = out j ∧
      I (j + 1) (action j (if 0 < j then wait j s else s)).2) :
    ∀ (remaining attempt : Nat) (err : Option Err) (s : σ),
      I attempt s → (attempt = 0 ∨ err.isSome = true) → attempt ≤ k → k < attempt + remaining →
      out k = none → (∀ j, attempt ≤ j → j < k → out j ≠ none) →
      (retryLoop action wait remaining attempt err s).1 = none ∧
        I (k + 1) (retryLoop action wait remaining attempt err s).2 := by
  intro remaining
  induction remaining with
  | zero => intro attempt err s _ _ h1 h2; omega
  | succ r ih =>
    intro attempt err s hI hc h1 h2 hk hlt
    unfold retryLoop
    rw [if_pos hc]
    obtain ⟨ho, hI'⟩ := hstep attempt s h1 hI
    dsimp only
    rcases Nat.eq_or_lt_of_le h1 with heq | hlt'
    · subst heq
      rw [ho, hk, retryLoop_stop]
      exact ⟨rfl, hI'⟩
    · have hne : out attempt ≠ none := hlt attempt (Nat.le_refl _) hlt'
      apply ih (attempt + 1) _ _ hI'
      · right
        rw [ho]
        cases h : out attempt with
        | none => exact absurd h hne
        | some e => rfl
      · omega
      · omega
      · exact hk
      · intro j hj1 hj2
        exact hlt j (by omega) hj2

theorem retryLoop_all_fail {σ : Type} (action : Nat → σ → Option Err × σ)
    (wait : Nat → σ → σ) (I : Nat → σ → Prop) (out : Nat → Option Err)
    (hstep : ∀ j s, I j s → (action j (if 0 < j then wait j s else s)).1 = out j ∧
      I (j + 1) (action j (if 0 < j then wait j s else s)).2) :
    ∀ (remaining attempt : Nat) (err : Option Err) (s : σ),
      I attempt s → (attempt = 0 ∨ err.isSome = true) →
      (∀ j, attempt ≤ j → j < attempt + (remaining + 1) → out j ≠ none) →
      (retryLoop action wait (remaining + 1) attempt err s).1 = out (attempt + remaining) ∧
        I (attempt + (remaining + 1)) (retryLoop action wait (remaining + 1) attempt err s).2 := by
  intro remaining
  induction remaining with
  | zero =>
    intro attempt err s hI hc _
    unfold retryLoop
    rw [if_pos hc]
    obtain ⟨ho, hI'⟩ := hstep attempt s hI
    simp only [retryLoop, Nat.add_zero]
    exact ⟨ho, hI'⟩
  | succ r ih =>
    intro attempt err s hI hc hall
    unfold retryLoop
    rw [if_pos hc]
    obtain ⟨ho, hI'⟩ := hstep attempt s hI
    have hne : out attempt ≠ none := hall attempt (Nat.le_refl _) (by omega)
    have := ih (attempt + 1) (action attempt (if 0 < attempt then wait attempt s else s)).1 _ hI'
      (by
        right
        rw [ho]
        cases h : out attempt with
        | none => exact absurd h hne
        | some e => rfl)
      (fun j hj1 hj2 => hall j (by omega) (by omega))
    have e1 : attempt + 1 + r = attempt + (r + 1) := by omega
    have e2 : attempt + 1 + (r + 1) = attempt + (r + 1 + 1) := by omega
    rw [e1, e2] at this
    exact this

theorem core_Config {g g' : Guardian} (h : g.core = g'.core) : g.Config = g'.Config := by
  show g.core.Config = g'.core.Config
  rw [h]

theorem core_DB {g g' : Guardian} (h : g.core = g'.core) : g.DB = g'.DB := by
  show g.core.DB = g'.core.DB
  rw [h]

theorem core_slot {g g' : Guardian} (h : g.core = g'.core) :
    g.nextUpgradeProposal = g'.nextUpgradeProposal := by
  show g.core.nextUpgradeProposal = g'.core.nextUpgradeProposal
  rw [h]

theorem core_version {g g' : Guardian} (h : g.core = g'.core) :
    g.nextUpgradeVersion = g'.nextUpgradeVersion := by
  show g.core.nextUpgradeVersion = g'.core.nextUpgradeVersion
  rw [h]

theorem waited_core {α : Type} (j : Nat) (s : α × Guardian) :
    (if 0 < j then backoffWait j s else s).2.core = s.2.core := by
  split <;> rfl

theorem waited_files {α : Type} (j : Nat) (s : α × Guardian) :
    (if 0 < j then backoffWait j s else s).2.files = s.2.files := by
  split <;> rfl

theorem waited_fst {α : Type} (j : Nat) (s : α × Guardian) :
    (if 0 < j then backoffWait j s else s).1 = s.1 := by
  split <;> rfl

theorem waited_appends {α : Type} (j : Nat) (s : α × Guardian) :
    Appends fetchEffect s.2 (if 0 < j then backoffWait j s else s).2 := by
  split
  · exact Appends.emit _ _ _ rfl
  · exact Appends.refl _ _

theorem waited_attempts {α : Type} (j : Nat) (s : α × Guardian) :
    (if 0 < j then backoffWait j s else s).2.count isAttempt = s.2.count isAttempt := by
  split
  · simp [backoffWait, isAttempt]
  · rfl

theorem fetched_core (env : Env) (g : Guardian) (urls : List Bytes) :
    (fetched env g urls).2.2.core = g.core := by
  unfold fetched Retry
  apply retryLoop_invariant (handle env urls) backoffWait (fun s => s.2.core = g.core)
  · intro k s hs
    rw [handle_core]; exact hs
  · intro k s hs
    exact hs
  · rfl

theorem fetched_appends (env : Env) (g : Guardian) (urls : List Bytes) :
    Appends fetchEffect g (fetched env g urls).2.2 := by
  unfold fetched Retry
  apply retryLoop_invariant (handle env urls) backoffWait (fun s => Appends fetchEffect g s.2)
  · intro k s hs
    exact Appends.trans hs (handle_appends env urls k s)
  · intro k s hs
    exact Appends.trans hs (Appends.emit _ _ _ rfl)
  · exact Appends.refl _ _

theorem attemptOutcome_congr (env : Env) (g g' : Guardian) (urls : List Bytes)
    (h : g.Config = g'.Config) : attemptOutcome env g urls = attemptOutcome env g' urls := by
  funext k
  exact handle_fst_congr env urls k ([], g) ([], g') h

theorem fetch_step (env : Env) (g : Guardian) (urls : List Bytes) (j : Nat) (s : Bytes × Guardian)
    (h : s.2.core = g.core ∧ s.2.count isAttempt = g.count isAttempt + j) :
    (handle env urls j (if 0 < j then backoffWait j s else s)).1 = attemptOutcome env g urls j ∧
      ((handle env urls j (if 0 < j then backoffWait j s else s)).2.2.core = g.core ∧
        (handle env urls j (if 0 < j then backoffWait j s else s)).2.2.count isAttempt =
          g.count isAttempt + (j + 1)) := by
  refine ⟨?_, ?_, ?_⟩
  · apply handle_fst_congr
    have := waited_core j s
    exact core_Config (this.trans h.1)
  · rw [handle_core, waited_core]; exact h.1
  · rw [handle_attempts, waited_attempts, h.2]; rfl

theorem firstSuccess_some (env : Env) (g : Guardian) (urls : List Bytes) (k : Nat)
    (h : firstSuccess env g urls = some k) :
    k < 5 ∧ attemptOutcome env g urls k = none ∧
      ∀ j, j < k → attemptOutcome env g urls j ≠ none := by
  unfold firstSuccess at h
  have hr : List.range 5 = [0, 1, 2, 3, 4] := by decide
  rw [hr] at h
  simp only [List.find?_cons, List.find?_nil] at h
  repeat' split at h
  all_goals
    first
    | (cases h; done)
    | (injection h with h
       subst h
       refine ⟨by omega, by simp_all, ?_⟩
       intro j hj
       interval_cases j <;> simp_all)

theorem firstSuccess_none (env : Env) (g : Guardian) (urls : List Bytes)
    (h : firstSuccess env g urls = none) :
    ∀ j, j < 5 → attemptOutcome env g urls j ≠ none := by
  unfold firstSuccess at h
  have hr : List.range 5 = [0, 1, 2, 3, 4] := by decide
  rw [hr] at h
  simp only [List.find?_cons, List.find?_nil] at h
  intro j hj
  repeat' split at h
  all_goals
    first
    | (cases h; done)
    | (interval_cases j <;> simp_all)

theorem fetched_first_success (env : Env) (g : Guardian) (urls : List Bytes) (k : Nat)
    (h : firstSuccess env g urls = some k) :
    (fetched env g urls).1 = none ∧ attempts (fetched env g urls).2.2 = attempts g + (k + 1) := by
  obtain ⟨hk, hout, hlt⟩ := firstSuccess_some env g urls k h
  have := retryLoop_first_success (handle env urls) backoffWait
    (fun j s => s.2.core = g.core ∧ s.2.count isAttempt = g.count isAttempt + j)
    (attemptOutcome env g urls) k (fun j s _ hI => fetch_step env g urls j s hI)
    5 0 none ([], g) ⟨rfl, rfl⟩ (Or.inl rfl) (Nat.zero_le _) (by omega) hout
    (fun j _ hj => hlt j hj)
  exact ⟨this.1, this.2.2⟩

theorem fetched_all_fail (env : Env) (g : Guardian) (urls : List Bytes)
    (h : firstSuccess env g urls = none) :
    (fetched env g urls).1 = attemptOutcome env g urls 4 ∧
      attemptOutcome env g urls 4 ≠ none ∧
      attempts (fetched env g urls).2.2 = attempts g + 5 := by
  have hall := firstSuccess_none env g urls h
  have := retryLoop_all_fail (handle env urls) backoffWait
    (fun j s => s.2.core = g.core ∧ s.2.count isAttempt = g.count isAttempt + j)
    (attemptOutcome env g urls) (fun j s hI => fetch_step env g urls j s hI)
    4 0 none ([], g) ⟨rfl, rfl⟩ (Or.inl rfl) (fun j _ hj => hall j (by omega))
  exact ⟨by simpa using this.1, hall 4 (by omega), this.2.2⟩

theorem checkFileHash_state (env : Env) (g : Guardian) (filePath hash : Bytes) :
    (checkFileHash env g filePath hash).2 = g.emit (Effect.openRead filePath) := by
  unfold checkFileHash
  dsimp only
  repeat' split
  all_goals rfl

theorem decompress_appends (env : Env) (g : Guardian) (p : Bytes) :
    Appends unpackEffect g (decompress env g p).2 := by
  unfold decompress
  dsimp only
  repeat' split
  all_goals simp [Appends, Guardian.emit, unpackEffect]

theorem decompress_core (env : Env) (g : Guardian) (p : Bytes) :
    (decompress env g p).2.core = g.core ∧ (decompress env g p).2.files = g.files := by
  unfold decompress
  dsimp only
  repeat' split
  all_goals simp [Guardian.core, Guardian.emit]

theorem probe_appends (env : Env) (g : Guardian) (p : Bytes) :
    Appends unpackEffect g (getAxiomLedgerCurrentVersion env g p).2 := by
  rcases probe_state env g p with h | h <;> rw [h]
  · exact Appends.refl _ _
  · exact Appends.emit _ _ _ rfl

theorem probe_core (env : Env) (g : Guardian) (p : Bytes) :
    (getAxiomLedgerCurrentVersion env g p).2.core = g.core ∧
      (getAxiomLedgerCurrentVersion env g p).2.files = g.files := by
  rcases probe_state env g p with h | h <;> rw [h]
  · exact ⟨rfl, rfl⟩
  · exact ⟨rfl, rfl⟩

theorem download_of_fetch_error (env : Env) (g : Guardian) (p : NodeProposal) (e : Err)
    (hslot : g.nextUpgradeProposal = some p) (hurls : p.DownloadUrls ≠ [])
    (hfetch : (fetched env g p.DownloadUrls).1 = some e) :
    download env g = (.error e, (fetched env g p.DownloadUrls).2.2) := by
  unfold download
  unfold fetched at hfetch
  have hlen : ¬ p.DownloadUrls.length ≤ 0 := by
    intro h
    exact hurls (List.length_eq_zero.mp (Nat.le_zero.mp h))
  simp only [hslot, hlen, if_false, hfetch]
  rfl

theorem download_tail (env : Env) (g : Guardian) (p : NodeProposal)
    (hslot : g.nextUpgradeProposal = some p) (hurls : p.DownloadUrls ≠ [])
    (hfetch : (fetched env g p.DownloadUrls).1 = none) :
    Appends unpackEffect
        ((fetched env g p.DownloadUrls).2.2.emit (Effect.openRead (fetched env g p.DownloadUrls).2.1))
        (download env g).2 ∧
      (download env g).2.DB = g.DB ∧ (download env g).2.Config = g.Config := by
  unfold download
  have hlen : ¬ p.DownloadUrls.length ≤ 0 := by
    intro h
    exact hurls (List.length_eq_zero.mp (Nat.le_zero.mp h))
  have hcore := fetched_core env g p.DownloadUrls
  unfold fetched at hfetch hcore ⊢
  simp only [hslot, hlen, if_false, hfetch, checkFileHash_state]
  have hd := decompress_appends env
    ((Retry (handle env p.DownloadUrls) backoffWait 5 ([], g)).2.2.emit
      (Effect.openRead (Retry (handle env p.DownloadUrls) backoffWait 5 ([], g)).2.1))
    (Retry (handle env p.DownloadUrls) backoffWait 5 ([], g)).2.1
  have hdc := decompress_core env
    ((Retry (handle env p.DownloadUrls) backoffWait 5 ([], g)).2.2.emit
      (Effect.openRead (Retry (handle env p.DownloadUrls) backoffWait 5 ([], g)).2.1))
    (Retry (handle env p.DownloadUrls) backoffWait 5 ([], g)).2.1
  split
  · exact ⟨Appends.refl _ _, core_DB hcore, core_Config hcore⟩
  · have hp := probe_appends env (decompress env
      ((Retry (handle env p.DownloadUrls) backoffWait 5 ([], g)).2.2.emit
        (Effect.openRead (Retry (handle env p.DownloadUrls) backoffWait 5 ([], g)).2.1))
      (Retry (handle env p.DownloadUrls) backoffWait 5 ([], g)).2.1).2
    have hpc := fun q => probe_core env (decompress env
      ((Retry (handle env p.DownloadUrls) backoffWait 5 ([], g)).2.2.emit
        (Effect.openRead (Retry (handle env p.DownloadUrls) backoffWait 5 ([], g)).2.1))
      (Retry (handle env p.DownloadUrls) backoffWait 5 ([], g)).2.1).2 q
    split
    · refine ⟨Appends.trans hd (hp _), ?_, ?_⟩
      · rw [core_DB (hpc _).1, core_DB hdc.1]; exact core_DB hcore
      · rw [core_Config (hpc _).1, core_Config hdc.1]; exact core_Config hcore
    · refine ⟨Appends.trans hd (hp _), ?_, ?_⟩
      · show (getAxiomLedgerCurrentVersion env _ _).2.DB = g.DB
        rw [core_DB (hpc _).1, core_DB hdc.1]; exact core_DB hcore
      · show (getAxiomLedgerCurrentVersion env _ _).2.Config = g.Config
        rw [core_Config (hpc _).1, core_Config hdc.1]; exact core_Config hcore

theorem fetchEffect_le_downloadEffect (e : Effect) (h : fetchEffect e = true) :
    downloadEffect e = true := by
  cases e <;> simp_all [downloadEffect, fetchEffect]

theorem unpackEffect_le_downloadEffect (e : Effect) (h : unpackEffect e = true) :
    downloadEffect e = true := by
  cases e <;> simp_all [downloadEffect, unpackEffect, fetchEffect]

theorem download_appends (env : Env) (g : Guardian) :
    Appends downloadEffect g (download env g).2 := by
  cases hslot : g.nextUpgradeProposal with
  | none =>
    unfold download
    simp only [hslot]
    exact Appends.refl _ _
  | some p =>
    by_cases hurls : p.DownloadUrls = []
    · unfold download
      simp only [hslot, hurls, List.length_nil, Nat.le_refl, if_true]
      exact Appends.refl _ _
    · have hf := Appends.mono fetchEffect_le_downloadEffect (fetched_appends env g p.DownloadUrls)
      cases hfetch : (fetched env g p.DownloadUrls).1 with
      | some e =>
        rw [download_of_fetch_error env g p e hslot hurls hfetch]
        exact hf
      | none =>
        have ht := (download_tail env g p hslot hurls hfetch).1
        exact Appends.trans (@Appends.emit_right _ _ _ (Effect.openRead _) rfl hf)
          (Appends.mono unpackEffect_le_downloadEffect ht)

theorem download_DB (env : Env) (g : Guardian) : (download env g).2.DB = g.DB := by
  cases hslot : g.nextUpgradeProposal with
  | none =>
    unfold download
    simp only [hslot]
  | some p =>
    by_cases hurls : p.DownloadUrls = []
    · unfold download
      simp only [hslot, hurls, List.length_nil, Nat.le_refl, if_true]
    · cases hfetch : (fetched env g p.DownloadUrls).1 with
      | some e =>
        rw [download_of_fetch_error env g p e hslot hurls hfetch]
        exact core_DB (fetched_core env g p.DownloadUrls)
      | none => exact (download_tail env g p hslot hurls hfetch).2.1

theorem beforeDownload_facts (env : Env) (g : Guardian) :
    (beforeDownload env g).Config = g.Config ∧ (beforeDownload env g).DB = g.DB ∧
      (beforeDownload env g).nextUpgradeProposal = g.nextUpgradeProposal ∧
      (beforeDownload env g).files = g.files ∧
      ∀ q : Effect → Bool, (∀ c, q (Effect.exec Cmd.version c) = false) →
        (beforeDownload env g).count q = g.count q := by
  unfold beforeDownload getNextUpgradeVersion
  refine ⟨probe_Config env g _, probe_DB env g _, probe_slot env g _, (probe_core env g _).2, ?_⟩
  intro q hq
  exact probe_count env g _ q hq

/-- What a cycle does: it ends at the probe, or as up to date, or runs
`download` from `beforeDownload` and, if that returns a path, `restart`. -/
theorem cycle_cases (env : Env) (g : Guardian) :
    (∃ e, downloadAndRestart env g = (.versionError e,
        (getAxiomLedgerCurrentVersion env g (Join [g.Config.AxiomPath, lit "axiom"])).2)) ∨
      downloadAndRestart env g = (.upToDate, beforeDownload env g) ∨
      (∃ e, (download env (beforeDownload env g)).1 = .error e ∧
        downloadAndRestart env g = (.downloadError e, (download env (beforeDownload env g)).2)) ∨
      (∃ path, (download env (beforeDownload env g)).1 = .ok path ∧
        ((∃ e, (restart env (download env (beforeDownload env g)).2 path).1 = some e ∧
            downloadAndRestart env g =
              (.restartError e, (restart env (download env (beforeDownload env g)).2 path).2)) ∨
          ((restart env (download env (beforeDownload env g)).2 path).1 = none ∧
            downloadAndRestart env g =
              (.done, (restart env (download env (beforeDownload env g)).2 path).2)))) := by
  unfold downloadAndRestart beforeDownload
  dsimp only
  split
  · exact Or.inl ⟨_, rfl⟩
  · split
    · exact Or.inr (Or.inl rfl)
    · split
      · rename_i e he
        exact Or.inr (Or.inr (Or.inl ⟨e, he, rfl⟩))
      · rename_i path hp
        refine Or.inr (Or.inr (Or.inr ⟨path, hp, ?_⟩))
        split
        · rename_i e he
          exact Or.inl ⟨e, he, rfl⟩
        · rename_i hn
          exact Or.inr ⟨hn, rfl⟩

theorem cycle_restarts_of_download_error (env : Env) (g : Guardian) (e : Err)
    (h : (download env (beforeDownload env g)).1 = .error e) :
    restarts (downloadAndRestart env g).2 = restarts g := by
  have hb := (beforeDownload_facts env g).2.2.2.2 isRestart (fun _ => rfl)
  have hd := (download_appends env (beforeDownload env g)).count isRestart (by
    intro x hx
    cases x <;> simp_all [downloadEffect, fetchEffect, unpackEffect, isRestart]
    rename_i k c
    cases k <;> simp_all [downloadEffect, fetchEffect, unpackEffect, isRestart])
  rcases cycle_cases env g with ⟨e', h'⟩ | h' | ⟨e', _, h'⟩ | ⟨path, hp, _⟩
  · rw [h']
    exact probe_count env g _ isRestart (fun _ => rfl)
  · rw [h']; exact hb
  · rw [h']
    exact hd.trans hb
  · rw [h] at hp
    cases hp

/-! ## Lemmas: the store, single attempts, the hash verification -/

theorem Store.get_put_self (db : Store) (key value : Bytes) :
    (db.put key value).get key = some value := by
  simp [Store.get, Store.put, List.lookup]

theorem Store.get_filter_ne (db : Store) (key other : Bytes) (h : other ≠ key) :
    List.lookup other (db.filter (fun kv => kv.1 ≠ key)) = List.lookup other db := by
  induction db with
  | nil => rfl
  | cons kv rest ih =>
    obtain ⟨k, v⟩ := kv
    by_cases hk : k = key
    · subst hk
      have hne : (other == k) = false := by simpa using h
      simp only [ne_eq, decide_not] at ih
      simp [List.filter, List.lookup, hne, ih]
    · by_cases ho : other = k
      · subst ho
        simp [List.filter, List.lookup, hk]
      · have hne : (other == k) = false := by simpa using ho
        simp only [ne_eq, decide_not] at ih
        simp [List.filter, List.lookup, hk, hne, ih]

theorem Store.get_put_other (db : Store) (key value other : Bytes) (h : other ≠ key) :
    (db.put key value).get other = db.get other := by
  have hne : (other == key) = false := by simpa using h
  simp only [Store.get, Store.put, List.lookup, hne]
  exact Store.get_filter_ne db key other h

theorem handle_response_ok (env : Env) (urls : List Bytes) (k r : Nat) (s : Bytes × Guardian)
    (body : Bytes)
    (hr : env.randInt k urls.length = some r)
    (hst : env.statStaging k = true ∨ env.mkdirStaging k = true)
    (hh : env.httpGet k (urls.getD (r % urls.length) []) = .response 200 body true)
    (ho : env.openFile k (Join [Join [s.2.Config.RepoRoot, lit "download"],
      Base (urls.getD (r % urls.length) [])]) = true) :
    (handle env urls k s).1 = none ∧
      (handle env urls k s).2.1 = Join [Join [s.2.Config.RepoRoot, lit "download"],
        Base (urls.getD (r % urls.length) [])] ∧
      (handle env urls k s).2.2.files =
        s.2.files.put (Join [Join [s.2.Config.RepoRoot, lit "download"],
          Base (urls.getD (r % urls.length) [])])
          (body ++ ((s.2.files.get (Join [Join [s.2.Config.RepoRoot, lit "download"],
            Base (urls.getD (r % urls.length) [])])).getD []).drop body.length) := by
  unfold handle
  simp only [hr, emit_Config]
  have hc : ¬ (env.statStaging k = false ∧ env.mkdirStaging k = false) := by
    rcases hst with h | h <;> simp [h]
  rw [if_neg hc]
  simp only [hh]
  simp only [ne_eq, not_true_eq_false, if_false, ho]
  simp
  split <;> simp [Guardian.emit]

theorem handle_response_bad (env : Env) (urls : List Bytes) (k r : Nat) (s : Bytes × Guardian)
    (status : Nat) (body : Bytes) (complete : Bool)
    (hr : env.randInt k urls.length = some r)
    (hst : env.statStaging k = true ∨ env.mkdirStaging k = true)
    (hh : env.httpGet k (urls.getD (r % urls.length) []) = .response status body complete)
    (hs : status ≠ 200) :
    (handle env urls k s).1 = some (Err.status status) ∧
      (handle env urls k s).2.1 = s.1 ∧ (handle env urls k s).2.2.files = s.2.files := by
  unfold handle
  simp only [hr, emit_Config]
  have hc : ¬ (env.statStaging k = false ∧ env.mkdirStaging k = false) := by
    rcases hst with h | h <;> simp [h]
  rw [if_neg hc]
  simp only [hh]
  rw [if_pos hs]
  simp
  split <;> simp [Guardian.emit]

theorem cycle_of_proceed (env : Env) (g : Guardian) (v : Bytes)
    (hprobe : (getAxiomLedgerCurrentVersion env g (Join [g.Config.AxiomPath, lit "axiom"])).1 = .ok v)
    (hnew : ¬ ((getNextUpgradeVersion g).1 ≠ [] ∧ v = (getNextUpgradeVersion g).1)) :
    downloadAndRestart env g =
      (match (download env (beforeDownload env g)).1 with
        | .error e => (.downloadError e, (download env (beforeDownload env g)).2)
        | .ok path =>
          match (restart env (download env (beforeDownload env g)).2 path).1 with
          | some e => (.restartError e, (restart env (download env (beforeDownload env g)).2 path).2)
          | none => (.done, (restart env (download env (beforeDownload env g)).2 path).2)) := by
  unfold downloadAndRestart beforeDownload
  simp only [hprobe]
  have hn : (getNextUpgradeVersion
      (getAxiomLedgerCurrentVersion env g (Join [g.Config.AxiomPath, lit "axiom"])).2).1 =
      (getNextUpgradeVersion g).1 := by
    simp only [getNextUpgradeVersion, probe_DB]
  rw [hn, if_neg hnew]

theorem download_of_hash_mismatch (env : Env) (g : Guardian) (p : NodeProposal)
    (hslot : g.nextUpgradeProposal = some p) (hurls : p.DownloadUrls ≠ [])
    (hfetch : (fetched env g p.DownloadUrls).1 = none)
    (hdigest : stagedDigest env g p.DownloadUrls ≠ some p.CheckHash) :
    download env g = (.error Err.hashCheck,
      (fetched env g p.DownloadUrls).2.2.emit
        (Effect.openRead (fetched env g p.DownloadUrls).2.1)) := by
  have hc : (checkFileHash env (fetched env g p.DownloadUrls).2.2
      (fetched env g p.DownloadUrls).2.1 p.CheckHash).1 = false := by
    unfold checkFileHash
    dsimp only
    split
    · rfl
    · rename_i content hcontent
      have hne : hexEncode (env.sha256 content) ≠ p.CheckHash := by
        intro he
        apply hdigest
        unfold stagedDigest
        rw [hcontent, Option.map_some', he]
      repeat' split
      all_goals rfl
  unfold download
  have hlen : ¬ p.DownloadUrls.length ≤ 0 := by
    intro h
    exact hurls (List.length_eq_zero.mp (Nat.le_zero.mp h))
  unfold fetched at hfetch hc
  simp only [hslot, hlen, if_false, hfetch, hc, if_true, checkFileHash_state]
  rfl

theorem download_attempts (env : Env) (g : Guardian) (p : NodeProposal)
    (hslot : g.nextUpgradeProposal = some p) (hurls : p.DownloadUrls ≠ []) :
    match firstSuccess env g p.DownloadUrls with
    | some k =>
      attempts (download env g).2 = attempts g + (k + 1) ∧ k + 1 ≤ 5 ∧
        hashChecks (download env g).2 = hashChecks g + 1
    | none =>
      attempts (download env g).2 = attempts g + 5 ∧
        hashChecks (download env g).2 = hashChecks g ∧
        (∃ e, attemptOutcome env g p.DownloadUrls 4 = some e ∧ (download env g).1 = .error e) ∧
        restarts (downloadAndRestart env g).2 = restarts g := by
  have hfa := fetched_appends env g p.DownloadUrls
  cases hfs : firstSuccess env g p.DownloadUrls with
  | some k =>
    obtain ⟨hf1, hf2⟩ := fetched_first_success env g p.DownloadUrls k hfs
    have ht := (download_tail env g p hslot hurls hf1).1
    refine ⟨?_, ?_, ?_⟩
    · unfold attempts at hf2 ⊢
      rw [ht.count isAttempt (by intro x hx; cases x <;> simp_all [unpackEffect, isAttempt]),
        emit_count, hf2]
      rfl
    · have := (firstSuccess_some env g p.DownloadUrls k hfs).1
      omega
    · unfold hashChecks
      rw [ht.count isHashCheck (by intro x hx; cases x <;> simp_all [unpackEffect, isHashCheck]),
        emit_count, hfa.count isHashCheck
          (by intro x hx; cases x <;> simp_all [fetchEffect, isHashCheck])]
      rfl
  | none =>
    obtain ⟨hf1, hf2, hf3⟩ := fetched_all_fail env g p.DownloadUrls hfs
    cases ho : attemptOutcome env g p.DownloadUrls 4 with
    | none => exact absurd ho hf2
    | some e =>
      rw [ho] at hf1
      have hd := download_of_fetch_error env g p e hslot hurls hf1
      refine ⟨?_, ?_, ⟨e, rfl, ?_⟩, ?_⟩
      · rw [hd]; exact hf3
      · rw [hd]
        exact hfa.count isHashCheck
          (by intro x hx; cases x <;> simp_all [fetchEffect, isHashCheck])
      · rw [hd]
      · have hb := beforeDownload_facts env g
        have hfs' : firstSuccess env (beforeDownload env g) p.DownloadUrls = none := by
          unfold firstSuccess at hfs ⊢
          rw [attemptOutcome_congr env (beforeDownload env g) g p.DownloadUrls hb.1]
          exact hfs
        obtain ⟨hg1, hg2, _⟩ := fetched_all_fail env (beforeDownload env g) p.DownloadUrls hfs'
        cases ho' : attemptOutcome env (beforeDownload env g) p.DownloadUrls 4 with
        | none => exact absurd ho' hg2
        | some e' =>
          rw [ho'] at hg1
          have hd' := download_of_fetch_error env (beforeDownload env g) p e'
            (hb.2.2.1.trans hslot) hurls hg1
          exact cycle_restarts_of_download_error env g e' (by rw [hd'])


/-! ## Lemmas: two mirrors, reconnect, restart, parsing, the cursor -/

theorem two_mirror_outcome (env : Env) (g : Guardian) (u0 u1 archive : Bytes) (w : Nat)
    (picks : Nat → Nat) (hw : w < 2)
    (hpicks : ∀ k, env.randInt k 2 = some (picks k))
    (hstaging : ∀ k, env.statStaging k = true ∨ env.mkdirStaging k = true)
    (hopen : ∀ k path, env.openFile k path = true)
    (hgood : ∀ k, env.httpGet k ([u0, u1].getD w []) = .response 200 archive true)
    (hbad : ∀ k, ∃ body complete,
      env.httpGet k ([u0, u1].getD (1 - w) []) = .response 500 body complete)
    (j : Nat) :
    attemptOutcome env g [u0, u1] j = if picks j % 2 = w then none else some (Err.status 500) := by
  unfold attemptOutcome
  have hlen : [u0, u1].length = 2 := rfl
  split
  · rename_i hp
    exact (handle_response_ok env [u0, u1] j (picks j) ([], g) archive (by rw [hlen]; exact hpicks j)
      (hstaging j) (by rw [hlen, hp]; exact hgood j) (hopen j _)).1
  · rename_i hp
    obtain ⟨body, complete, hb⟩ := hbad j
    have hidx : picks j % 2 = 1 - w := by
      have := Nat.mod_lt (picks j) (show 0 < 2 by decide)
      omega
    exact (handle_response_bad env [u0, u1] j (picks j) ([], g) 500 body complete
      (by rw [hlen]; exact hpicks j) (hstaging j) (by rw [hlen, hidx]; exact hb) (by decide)).1

theorem firstSuccess_eq_firstPick (env : Env) (g : Guardian) (u0 u1 archive : Bytes) (w : Nat)
    (picks : Nat → Nat) (hw : w < 2)
    (hpicks : ∀ k, env.randInt k 2 = some (picks k))
    (hstaging : ∀ k, env.statStaging k = true ∨ env.mkdirStaging k = true)
    (hopen : ∀ k path, env.openFile k path = true)
    (hgood : ∀ k, env.httpGet k ([u0, u1].getD w []) = .response 200 archive true)
    (hbad : ∀ k, ∃ body complete,
      env.httpGet k ([u0, u1].getD (1 - w) []) = .response 500 body complete) :
    firstSuccess env g [u0, u1] = firstPick picks w := by
  unfold firstSuccess firstPick
  congr 1
  funext k
  rw [two_mirror_outcome env g u0 u1 archive w picks hw hpicks hstaging hopen hgood hbad k]
  by_cases h : picks k % 2 = w <;> simp [h]

theorem staged_content (files : Store) (path archive : Bytes)
    (hst : ∀ old, files.get path = some old → old.length ≤ archive.length) :
    archive ++ ((files.get path).getD []).drop archive.length = archive := by
  cases h : files.get path with
  | none => simp
  | some old => simp [List.drop_eq_nil_of_le (hst old h)]

theorem two_mirror_fetched (env : Env) (g : Guardian) (u0 u1 archive : Bytes) (w : Nat)
    (picks : Nat → Nat) (k : Nat) (hw : w < 2)
    (hpicks : ∀ k, env.randInt k 2 = some (picks k))
    (hstaging : ∀ k, env.statStaging k = true ∨ env.mkdirStaging k = true)
    (hopen : ∀ k path, env.openFile k path = true)
    (hgood : ∀ k, env.httpGet k ([u0, u1].getD w []) = .response 200 archive true)
    (hbad : ∀ k, ∃ body complete,
      env.httpGet k ([u0, u1].getD (1 - w) []) = .response 500 body complete)
    (hstale : ∀ old, g.files.get (stagedPath g ([u0, u1].getD w [])) = some old →
      old.length ≤ archive.length)
    (hk : firstPick picks w = some k) :
    (fetched env g [u0, u1]).1 = none ∧
      (fetched env g [u0, u1]).2.1 = stagedPath g ([u0, u1].getD w []) ∧
      (fetched env g [u0, u1]).2.2.files.get (stagedPath g ([u0, u1].getD w [])) =
        some archive := by
  have hfs : firstSuccess env g [u0, u1] = some k := by
    rw [firstSuccess_eq_firstPick env g u0 u1 archive w picks hw hpicks hstaging hopen hgood hbad]
    exact hk
  obtain ⟨hk5, hout, hlt⟩ := firstSuccess_some env g [u0, u1] k hfs
  have hpk : picks k % 2 = w := by
    have := two_mirror_outcome env g u0 u1 archive w picks hw hpicks hstaging hopen hgood hbad k
    rw [hout] at this
    by_contra hc
    rw [if_neg hc] at this
    cases this
  have hlen : [u0, u1].length = 2 := rfl
  have := retryLoop_first_success (handle env [u0, u1]) backoffWait
    (fun j s => s.2.core = g.core ∧
      (∀ old, s.2.files.get (stagedPath g ([u0, u1].getD w [])) = some old →
        old.length ≤ archive.length) ∧
      (k < j → s.1 = stagedPath g ([u0, u1].getD w []) ∧
        s.2.files.get (stagedPath g ([u0, u1].getD w [])) = some archive))
    (attemptOutcome env g [u0, u1]) k
    (by
      intro j s hjk hI
      obtain ⟨hcore, hst, _⟩ := hI
      have hwc := waited_core j s
      have hwf := waited_files j s
      have hw1 := waited_fst j s
      have hcfg : (if 0 < j then backoffWait j s else s).2.Config = g.Config :=
        core_Config (hwc.trans hcore)
      refine ⟨?_, ?_, ?_, ?_⟩
      · exact handle_fst_congr env [u0, u1] j _ ([], g) hcfg
      · rw [handle_core, hwc]; exact hcore
      · by_cases hp : picks j % 2 = w
        · have h := handle_response_ok env [u0, u1] j (picks j)
            (if 0 < j then backoffWait j s else s) archive (by rw [hlen]; exact hpicks j)
            (hstaging j) (by rw [hlen, hp]; exact hgood j) (hopen j _)
          rw [hlen, hp, hcfg] at h
          intro old hold
          unfold stagedPath at hold hst
          rw [h.2.2, hwf, staged_content _ _ _ hst, Store.get_put_self] at hold
          cases hold
          exact Nat.le_refl _
        · obtain ⟨body, complete, hb⟩ := hbad j
          have hidx : picks j % 2 = 1 - w := by
            have := Nat.mod_lt (picks j) (show 0 < 2 by decide)
            omega
          have h := handle_response_bad env [u0, u1] j (picks j)
            (if 0 < j then backoffWait j s else s) 500 body complete
            (by rw [hlen]; exact hpicks j) (hstaging j) (by rw [hlen, hidx]; exact hb) (by decide)
          rw [h.2.2, hwf]
          exact hst
      · intro hkj
        have hjeq : j = k := by omega
        subst hjeq
        have h := handle_response_ok env [u0, u1] j (picks j)
          (if 0 < j then backoffWait j s else s) archive (by rw [hlen]; exact hpicks j)
          (hstaging j) (by rw [hlen, hpk]; exact hgood j) (hopen j _)
        rw [hlen, hpk, hcfg] at h
        refine ⟨h.2.1, ?_⟩
        unfold stagedPath at hst ⊢
        rw [h.2.2, hwf, staged_content _ _ _ hst, Store.get_put_self])
    5 0 none ([], g) ⟨rfl, hstale, by intro h; omega⟩ (Or.inl rfl) (Nat.zero_le _) (by omega) hout
    (fun j _ hj => hlt j hj)
  exact ⟨this.1, (this.2.2.2 (by omega)).1, (this.2.2.2 (by omega)).2⟩


theorem Appends.clock {S : Effect → Bool} {g g' : Guardian} (h : Appends S g g') :
    g.clock ≤ g'.clock := by
  obtain ⟨es, he, _⟩ := h
  unfold Guardian.clock
  rw [he, List.length_append]
  omega

theorem probe_ok (env : Env) (g : Guardian) (p out : Bytes)
    (hstat : env.stat g.clock (Join [Dir p, lit "version.sh"]) = true)
    (hbash : env.bash g.clock (lit "cd " ++ Dir p ++ lit " && bash version.sh") = .output out) :
    getAxiomLedgerCurrentVersion env g p =
      (parseVersion out,
        g.emit (Effect.exec Cmd.version (lit "cd " ++ Dir p ++ lit " && bash version.sh"))) := by
  unfold getAxiomLedgerCurrentVersion
  simp only [hstat, hbash]
  rfl

theorem probe_ok_state (env : Env) (g : Guardian) (p v : Bytes)
    (h : (getAxiomLedgerCurrentVersion env g p).1 = .ok v) :
    (getAxiomLedgerCurrentVersion env g p).2 =
      g.emit (Effect.exec Cmd.version (lit "cd " ++ Dir p ++ lit " && bash version.sh")) := by
  unfold getAxiomLedgerCurrentVersion at h ⊢
  dsimp only at h ⊢
  split
  · rename_i hs
    rw [if_pos hs] at h
    cases h
  · split <;> rfl

theorem subscribeLog_frame (env : Env) (g : Guardian) :
    (subscribeLog env g).2.DB = g.DB ∧
      (subscribeLog env g).2.nextUpgradeProposal = g.nextUpgradeProposal ∧
      (subscribeLog env g).2.nextUpgradeVersion = g.nextUpgradeVersion ∧
      (subscribeLog env g).2.Config = g.Config ∧
      Appends reconnectEffect g (subscribeLog env g).2 := by
  unfold subscribeLog
  dsimp only
  split
  all_goals
    refine ⟨rfl, rfl, rfl, rfl, ?_⟩
    simp [Appends, Guardian.emit, reconnectEffect]

theorem dialed_frame (env : Env) (g : Guardian) :
    (Retry (dialAction env) backoffWait 5 (none, g)).2.2.core = g.core ∧
      Appends reconnectEffect g (Retry (dialAction env) backoffWait 5 (none, g)).2.2 := by
  unfold Retry
  apply retryLoop_invariant (dialAction env) backoffWait
    (fun s => s.2.core = g.core ∧ Appends reconnectEffect g s.2)
  · intro k s hs
    unfold dialAction
    dsimp only
    split
    all_goals
      refine ⟨hs.1, Appends.trans hs.2 ?_⟩
      simp [Appends, Guardian.emit, reconnectEffect]
  · intro k s hs
    exact ⟨hs.1, Appends.trans hs.2 (Appends.emit _ _ _ rfl)⟩
  · exact ⟨rfl, Appends.refl _ _⟩

theorem reconnect_frame (env : Env) (g : Guardian) :
    (reconnect env g).2.DB = g.DB ∧
      (reconnect env g).2.nextUpgradeProposal = g.nextUpgradeProposal ∧
      (reconnect env g).2.nextUpgradeVersion = g.nextUpgradeVersion ∧
      (reconnect env g).2.Config = g.Config ∧
      Appends reconnectEffect g (reconnect env g).2 := by
  have hd := dialed_frame env g
  unfold reconnect
  dsimp only
  split
  · exact ⟨core_DB hd.1, core_slot hd.1, core_version hd.1, core_Config hd.1, hd.2⟩
  · have hs := subscribeLog_frame env
      { (Retry (dialAction env) backoffWait 5 (none, g)).2.2 with
        Client := (Retry (dialAction env) backoffWait 5 (none, g)).2.1.getD
          (Retry (dialAction env) backoffWait 5 (none, g)).2.2.Client }
    have h1 := core_DB hd.1
    have h2 := core_slot hd.1
    have h3 := core_version hd.1
    have h4 := core_Config hd.1
    exact ⟨hs.1.trans h1, hs.2.1.trans h2, hs.2.2.1.trans h3, hs.2.2.2.1.trans h4,
      Appends.trans hd.2 hs.2.2.2.2⟩

theorem reconnect_ok (env : Env) (g : Guardian) (client sub : Nat)
    (hdial : env.dial 0 = some client) (hsub : env.subscribeFilterLogs client = some sub) :
    (reconnect env g).1 = none := by
  unfold reconnect Retry
  have h1 : (retryLoop (dialAction env) backoffWait 5 0 none (none, g)) =
      (none, (some client, g.emit (Effect.dial g.Config.DialUrl))) := by
    unfold retryLoop
    simp only [true_or, if_true, Nat.lt_irrefl, if_false]
    have : dialAction env 0 (none, g) = (none, (some client, g.emit (Effect.dial g.Config.DialUrl))) := by
      unfold dialAction
      simp only [hdial]
    rw [this]
    exact retryLoop_stop _ _ _ _ _
  rw [h1]
  simp only [Option.getD_some]
  unfold subscribeLog
  simp only [hsub]

theorem restart_of_empty (env : Env) (g : Guardian) (path : Bytes)
    (h : g.nextUpgradeVersion = []) : restart env g path = (none, g) := by
  unfold restart
  rw [if_pos h]

theorem restart_of_missing (env : Env) (g : Guardian) (path : Bytes)
    (hv : g.nextUpgradeVersion ≠ [])
    (hstat : env.stat g.clock (Join [g.Config.AxiomPath, lit "restart.sh"]) = false) :
    restart env g path = (some Err.stat, g) := by
  unfold restart
  rw [if_neg hv, if_pos hstat]

theorem restart_of_failed (env : Env) (g : Guardian) (path : Bytes)
    (hv : g.nextUpgradeVersion ≠ [])
    (hstat : env.stat g.clock (Join [g.Config.AxiomPath, lit "restart.sh"]) = true)
    (hbash : env.bash g.clock (lit "cd " ++ g.Config.AxiomPath ++ lit " && bash restart.sh " ++
      Join [path, lit "axiom"]) = .failed) :
    restart env g path = (some Err.exec,
      g.emit (Effect.exec Cmd.restart (lit "cd " ++ g.Config.AxiomPath ++
        lit " && bash restart.sh " ++ Join [path, lit "axiom"]))) := by
  unfold restart
  rw [if_neg hv, if_neg (by simp [hstat])]
  simp only [hbash]

theorem restart_of_ran (env : Env) (g : Guardian) (path out : Bytes)
    (hv : g.nextUpgradeVersion ≠ [])
    (hstat : env.stat g.clock (Join [g.Config.AxiomPath, lit "restart.sh"]) = true)
    (hbash : env.bash g.clock (lit "cd " ++ g.Config.AxiomPath ++ lit " && bash restart.sh " ++
      Join [path, lit "axiom"]) = .output out) :
    restart env g path = reconnect env
      { g.emit (Effect.exec Cmd.restart (lit "cd " ++ g.Config.AxiomPath ++
          lit " && bash restart.sh " ++ Join [path, lit "axiom"])) with
        DB := g.DB.put nextUpgradeVersion g.nextUpgradeVersion } := by
  unfold restart
  rw [if_neg hv, if_neg (by simp [hstat])]
  simp only [hbash]
  rfl


theorem isRestart_of_downloadEffect (e : Effect) (h : downloadEffect e = true) :
    isRestart e = false := by
  cases e with
  | exec kind command => cases kind <;> simp_all [downloadEffect, fetchEffect, unpackEffect, isRestart]
  | _ => simp_all [downloadEffect, fetchEffect, unpackEffect, isRestart]

theorem isUnpack_of_fetchEffect (e : Effect) (h : fetchEffect e = true) : isUnpack e = false := by
  cases e <;> simp_all [fetchEffect, isUnpack]

theorem isHashCheck_of_fetchEffect (e : Effect) (h : fetchEffect e = true) :
    isHashCheck e = false := by
  cases e <;> simp_all [fetchEffect, isHashCheck]

theorem isHashCheck_of_unpackEffect (e : Effect) (h : unpackEffect e = true) :
    isHashCheck e = false := by
  cases e <;> simp_all [unpackEffect, isHashCheck]

theorem isAttempt_of_unpackEffect (e : Effect) (h : unpackEffect e = true) :
    isAttempt e = false := by
  cases e <;> simp_all [unpackEffect, isAttempt]

theorem isAttempt_of_reconnectEffect (e : Effect) (h : reconnectEffect e = true) :
    isAttempt e = false := by
  cases e <;> simp_all [reconnectEffect, isAttempt]

theorem isRestart_of_reconnectEffect (e : Effect) (h : reconnectEffect e = true) :
    isRestart e = false := by
  cases e <;> simp_all [reconnectEffect, isRestart]

theorem isFetch_of_reconnectEffect (e : Effect) (h : reconnectEffect e = true) :
    isFetch e = false := by
  cases e <;> simp_all [reconnectEffect, isFetch]

theorem isUnpack_of_reconnectEffect (e : Effect) (h : reconnectEffect e = true) :
    isUnpack e = false := by
  cases e <;> simp_all [reconnectEffect, isUnpack]

theorem download_success (env : Env) (g : Guardian) (p : NodeProposal) (V : Bytes)
    (hslot : g.nextUpgradeProposal = some p) (hurls : p.DownloadUrls ≠ [])
    (hfetch : (fetched env g p.DownloadUrls).1 = none)
    (hdigest : stagedDigest env g p.DownloadUrls = some p.CheckHash)
    (hread : ∀ path, env.openRead path = true ∧ env.readAll path = true)
    (hstat : ∀ t path, env.stat t path = true)
    (hver : ∀ t dir, g.clock ≤ t → ∃ out,
      env.bash t (lit "cd " ++ dir ++ lit " && bash version.sh") = .output out ∧
      parseVersion out = .ok V) :
    ∃ path, (download env g).1 = .ok path ∧ (download env g).2.nextUpgradeVersion = V ∧
      (download env g).2.nextUpgradeProposal = none := by
  have hc : (checkFileHash env (fetched env g p.DownloadUrls).2.2
      (fetched env g p.DownloadUrls).2.1 p.CheckHash).1 = true := by
    unfold stagedDigest at hdigest
    unfold checkFileHash
    cases hf : (fetched env g p.DownloadUrls).2.2.files.get (fetched env g p.DownloadUrls).2.1 with
    | none => rw [hf] at hdigest; cases hdigest
    | some content =>
      rw [hf, Option.map_some'] at hdigest
      injection hdigest with hd
      simp [(hread _).1, (hread _).2, hd]
  have hfa := fetched_appends env g p.DownloadUrls
  have hda := decompress_appends env
    ((fetched env g p.DownloadUrls).2.2.emit (Effect.openRead (fetched env g p.DownloadUrls).2.1))
    (fetched env g p.DownloadUrls).2.1
  have hclock : g.clock ≤ (decompress env
      ((fetched env g p.DownloadUrls).2.2.emit (Effect.openRead (fetched env g p.DownloadUrls).2.1))
      (fetched env g p.DownloadUrls).2.1).2.clock := by
    have h1 := hfa.clock
    have h2 := hda.clock
    have h3 : ((fetched env g p.DownloadUrls).2.2.emit
        (Effect.openRead (fetched env g p.DownloadUrls).2.1)).clock =
        (fetched env g p.DownloadUrls).2.2.clock + 1 := by
      simp [Guardian.clock]
    omega
  obtain ⟨out, hout, hparse⟩ := hver _ (Dir (Join [(decompress env
      ((fetched env g p.DownloadUrls).2.2.emit (Effect.openRead (fetched env g p.DownloadUrls).2.1))
      (fetched env g p.DownloadUrls).2.1).1, lit "axiom"])) hclock
  have hp := probe_ok env _ (Join [(decompress env
      ((fetched env g p.DownloadUrls).2.2.emit (Effect.openRead (fetched env g p.DownloadUrls).2.1))
      (fetched env g p.DownloadUrls).2.1).1, lit "axiom"]) out (hstat _ _) hout
  unfold download
  have hlen : ¬ p.DownloadUrls.length ≤ 0 := by
    intro h
    exact hurls (List.length_eq_zero.mp (Nat.le_zero.mp h))
  unfold fetched at hfetch hc hp
  simp only [hslot, hlen, if_false, hfetch, hc, checkFileHash_state, hp, hparse]
  exact ⟨_, rfl, rfl, rfl⟩

theorem getNewestFromBlock_DB (g : Guardian) (r : Option Int × Guardian)
    (h : getNewestFromBlock g = some r) : r.2.DB = g.DB := by
  unfold getNewestFromBlock at h
  repeat' split at h
  all_goals first | (cases h; done) | (injection h with h; subst h; rfl)

theorem fetchHistoryLog_DB (env : Env) (g : Guardian) (r : Option Err × Guardian)
    (h : fetchHistoryLog env g = some r) : r.2.DB = g.DB := by
  unfold fetchHistoryLog at h
  split at h
  · cases h
  · rename_i r0 h0
    have hdb := getNewestFromBlock_DB g r0 h0
    dsimp only at h
    split at h
    · injection h with h
      subst h
      exact hdb
    · injection h with h
      subst h
      rw [foldl_handleProposalLog]
      exact hdb

theorem handleProposalLog_DB (env : Env) (g : Guardian) (data : Bytes) :
    (handleProposalLog env g data).DB = g.DB := by
  have := foldl_handleProposalLog env [data] g
  rw [List.foldl_cons, List.foldl_nil] at this
  rw [this]

theorem restart_DB (env : Env) (g : Guardian) (path : Bytes) :
    (restart env g path).2.DB = g.DB ∨
      ∃ out, env.stat g.clock (Join [g.Config.AxiomPath, lit "restart.sh"]) = true ∧
        env.bash g.clock (lit "cd " ++ g.Config.AxiomPath ++ lit " && bash restart.sh " ++
          Join [path, lit "axiom"]) = .output out ∧
        (restart env g path).2.DB = g.DB.put nextUpgradeVersion g.nextUpgradeVersion := by
  by_cases hv : g.nextUpgradeVersion = []
  · rw [restart_of_empty env g path hv]
    exact Or.inl rfl
  · cases hs : env.stat g.clock (Join [g.Config.AxiomPath, lit "restart.sh"]) with
    | false =>
      rw [restart_of_missing env g path hv hs]
      exact Or.inl rfl
    | true =>
      cases hb : env.bash g.clock (lit "cd " ++ g.Config.AxiomPath ++ lit " && bash restart.sh " ++
          Join [path, lit "axiom"]) with
      | failed =>
        rw [restart_of_failed env g path hv hs hb]
        exact Or.inl rfl
      | output out =>
        refine Or.inr ⟨out, rfl, rfl, ?_⟩
        rw [restart_of_ran env g path out hv hs hb]
        exact (reconnect_frame env _).1

theorem splitGo_skip (sep : Bytes) (k : Nat) (s acc : Bytes) :
    splitGo sep k s acc = splitGo sep 0 (s.drop k) acc := by
  induction k generalizing s with
  | zero => rfl
  | succ k ih =>
    cases s with
    | nil => simp [splitGo]
    | cons c cs => simp [splitGo, ih]

theorem splitGo_eq (sep : Bytes) (hsep : sep ≠ []) (s acc : Bytes) :
    splitGo sep 0 s acc =
      match afterFirst sep s with
      | none => [acc.reverse ++ s]
      | some rest => (acc.reverse ++ upTo sep s) :: splitGo sep 0 rest [] := by
  induction s generalizing acc with
  | nil =>
    have : sep.isPrefixOf ([] : Bytes) = false := by
      cases sep with
      | nil => exact absurd rfl hsep
      | cons a as => rfl
    simp [splitGo, afterFirst, this]
  | cons c cs ih =>
    by_cases hp : sep.isPrefixOf (c :: cs) = true
    · have hlen : sep.length = (sep.length - 1) + 1 := by
        cases sep with
        | nil => exact absurd rfl hsep
        | cons a as => simp
      simp only [splitGo, afterFirst, upTo, hp, if_true, List.append_nil]
      rw [splitGo_skip]
      congr 2
      conv_rhs => rw [hlen]
      rfl
    · have hp' : sep.isPrefixOf (c :: cs) = false := Bool.eq_false_iff.mpr hp
      simp only [splitGo, afterFirst, upTo, hp', Bool.false_eq_true, if_false]
      rw [ih]
      cases afterFirst sep cs <;> simp

theorem splitGo_head (sep : Bytes) (hsep : sep ≠ []) (s : Bytes) :
    ∃ tail, splitGo sep 0 s [] = upTo sep s :: tail := by
  rw [splitGo_eq sep hsep]
  cases h : afterFirst sep s with
  | none =>
    refine ⟨[], ?_⟩
    simp only [List.reverse_nil, List.nil_append]
    congr 1
    clear hsep
    induction s with
    | nil => rfl
    | cons c cs ih =>
      unfold afterFirst at h
      split at h
      · cases h
      · rename_i hp
        have hp' : sep.isPrefixOf (c :: cs) = false := Bool.eq_false_iff.mpr hp
        simp only [upTo, hp', Bool.false_eq_true, if_false]
        rw [← ih h]
  | some rest => exact ⟨splitGo sep 0 rest [], by simp⟩

theorem parseVersion_eq (out : Bytes) :
    parseVersion out =
      match afterFirst (lit ": ") out with
      | some rest => .ok (upTo (lit "\n") (upTo (lit ": ") rest))
      | none => .error Err.noSeparator := by
  unfold parseVersion Split
  rw [splitGo_eq (lit ": ") (by decide)]
  cases h : afterFirst (lit ": ") out with
  | none => rfl
  | some rest =>
    obtain ⟨tail, ht⟩ := splitGo_head (lit ": ") (by decide) rest
    obtain ⟨tail2, ht2⟩ := splitGo_head (lit "\n") (by decide) (upTo (lit ": ") rest)
    simp only [ht, ht2, List.headD_cons]

theorem bigEndianUint64_putUint64 (c : Nat) (h : c < 2 ^ 64) :
    bigEndianUint64 (putUint64 c) = some c := by
  unfold putUint64 bigEndianUint64
  simp only [Option.some.injEq]
  norm_num at h ⊢
  omega

theorem toInt64_of_lt (x : Nat) (h : x < 2 ^ 63) : toInt64 x = (x : Int) := by
  unfold toInt64
  have h1 : x % 2 ^ 64 = x := Nat.mod_eq_of_lt (by omega)
  rw [h1, if_pos h]

theorem bigUint64_toInt64 (x : Nat) (h : x < 2 ^ 63) : bigUint64 (toInt64 x) = x := by
  rw [toInt64_of_lt x h]
  unfold bigUint64
  simp only [Int.natAbs_ofNat]
  exact Nat.mod_eq_of_lt (by omega)

theorem getNewestFromBlock_max (config : Config) (client : Nat) (db : Store) (c : Nat)
    (hs1 : 1 ≤ config.Subscribe.FromBlock) (hs : config.Subscribe.FromBlock < 2 ^ 63)
    (hc : c < 2 ^ 63) (hdb : db.get nextFromBlockKey = some (putUint64 c)) :
    (getNewestFromBlock (NewGuardian config client db)).map (fun r => r.1) =
      some (some ((max c config.Subscribe.FromBlock : Nat) : Int)) := by
  unfold getNewestFromBlock NewGuardian
  have hne : config.Subscribe.FromBlock ≠ 0 := by omega
  simp only [hdb, bigEndianUint64_putUint64 c (by omega), hne, ne_eq, not_false_eq_true, if_true,
    bigUint64_toInt64 _ hs]
  by_cases hlt : c > config.Subscribe.FromBlock
  · rw [if_pos hlt]
    simp only [Option.map_some', toInt64_of_lt c hc]
    rw [max_eq_left (by omega)]
  · rw [if_neg hlt]
    simp only [Option.map_some', toInt64_of_lt _ hs]
    rw [max_eq_right (by omega)]

theorem getNewestFromBlock_absent (config : Config) (client : Nat) (db : Store)
    (hs1 : 1 ≤ config.Subscribe.FromBlock) (hs : config.Subscribe.FromBlock < 2 ^ 63)
    (hdb : db.get nextFromBlockKey = none) :
    (getNewestFromBlock (NewGuardian config client db)).map (fun r => r.1) =
      some (some (config.Subscribe.FromBlock : Int)) := by
  unfold getNewestFromBlock NewGuardian
  have hne : config.Subscribe.FromBlock ≠ 0 := by omega
  simp only [hdb, hne, ne_eq, not_false_eq_true, if_true, Option.map_some', toInt64_of_lt _ hs]

/-! ## Lemmas: the first occurrence of a separator -/

theorem afterFirst_some (sep s rest : Bytes) (h : afterFirst sep s = some rest) :
    s = upTo sep s ++ sep ++ rest := by
  induction s with
  | nil =>
    unfold afterFirst at h
    split at h
    · rename_i hp
      injection h with h
      subst h
      have : sep <+: [] := List.isPrefixOf_iff_prefix.mp hp
      have hs : sep = [] := List.prefix_nil.mp this
      simp [upTo, hs]
    · cases h
  | cons c cs ih =>
    unfold afterFirst at h
    split at h
    · rename_i hp
      injection h with h
      subst h
      obtain ⟨t, ht⟩ := List.isPrefixOf_iff_prefix.mp hp
      simp only [upTo, hp, if_true, List.nil_append]
      rw [← ht, List.drop_left]
    · rename_i hp
      have hp' : sep.isPrefixOf (c :: cs) = false := Bool.eq_false_iff.mpr hp
      simp only [upTo, hp', Bool.false_eq_true, if_false, List.cons_append]
      exact congrArg (List.cons c) (ih h)

theorem afterFirst_none (sep s : Bytes) (h : afterFirst sep s = none) : ¬ sep <:+: s := by
  induction s with
  | nil =>
    unfold afterFirst at h
    split at h
    · cases h
    · rename_i hp
      intro hin
      apply hp
      have hs : sep = [] := List.infix_nil.mp hin
      rw [hs]
      rfl
  | cons c cs ih =>
    unfold afterFirst at h
    split at h
    · cases h
    · rename_i hp
      intro hin
      rcases List.infix_cons_iff.mp hin with hpre | hin'
      · exact hp (List.isPrefixOf_iff_prefix.mpr hpre)
      · exact ih h hin'

theorem upTo_first (sep s pre suf : Bytes) (h : s = pre ++ sep ++ suf) :
    (upTo sep s).length ≤ pre.length := by
  induction s generalizing pre with
  | nil => simp [upTo]
  | cons c cs ih =>
    unfold upTo
    split
    · simp
    · rename_i hp
      cases pre with
      | nil =>
        exfalso
        apply hp
        apply List.isPrefixOf_iff_prefix.mpr
        exact ⟨suf, by simpa using h.symm⟩
      | cons a pre' =>
        simp only [List.cons_append, List.cons.injEq] at h
        have := ih pre' h.2
        simp only [List.length_cons]
        omega

/-! ## Lemmas: the slot, the restart frame, the event loop -/

theorem isAttempt_of_restartEffect (e : Effect) (h : restartEffect e = true) :
    isAttempt e = false := by
  cases e with
  | exec kind command => rfl
  | _ => simp_all [restartEffect, reconnectEffect, isAttempt]

theorem isFetch_of_restartEffect (e : Effect) (h : restartEffect e = true) :
    isFetch e = false := by
  cases e with
  | exec kind command => rfl
  | _ => simp_all [restartEffect, reconnectEffect, isFetch]

theorem restart_frame (env : Env) (g : Guardian) (path : Bytes) :
    (restart env g path).2.nextUpgradeProposal = g.nextUpgradeProposal ∧
      (restart env g path).2.Config = g.Config ∧
      Appends restartEffect g (restart env g path).2 := by
  by_cases hv : g.nextUpgradeVersion = []
  · rw [restart_of_empty env g path hv]
    exact ⟨rfl, rfl, Appends.refl _ _⟩
  · cases hs : env.stat g.clock (Join [g.Config.AxiomPath, lit "restart.sh"]) with
    | false =>
      rw [restart_of_missing env g path hv hs]
      exact ⟨rfl, rfl, Appends.refl _ _⟩
    | true =>
      cases hb : env.bash g.clock (lit "cd " ++ g.Config.AxiomPath ++ lit " && bash restart.sh " ++
          Join [path, lit "axiom"]) with
      | failed =>
        rw [restart_of_failed env g path hv hs hb]
        exact ⟨rfl, rfl, Appends.emit _ _ _ rfl⟩
      | output out =>
        rw [restart_of_ran env g path out hv hs hb]
        have hr := reconnect_frame env
          { g.emit (Effect.exec Cmd.restart (lit "cd " ++ g.Config.AxiomPath ++
              lit " && bash restart.sh " ++ Join [path, lit "axiom"])) with
            DB := g.DB.put nextUpgradeVersion g.nextUpgradeVersion }
        refine ⟨hr.2.1, hr.2.2.2.1, ?_⟩
        have h1 : Appends restartEffect g
            { g.emit (Effect.exec Cmd.restart (lit "cd " ++ g.Config.AxiomPath ++
                lit " && bash restart.sh " ++ Join [path, lit "axiom"])) with
              DB := g.DB.put nextUpgradeVersion g.nextUpgradeVersion } :=
          Appends.emit restartEffect g _ rfl
        exact Appends.trans h1 (Appends.mono (fun e he => by
          cases e <;> simp_all [restartEffect, reconnectEffect]) hr.2.2.2.2)

theorem download_of_empty_slot (env : Env) (g : Guardian) (h : g.nextUpgradeProposal = none) :
    download env g = (.ok [], g) := by
  unfold download
  simp only [h]

theorem download_slot (env : Env) (g : Guardian) (p : NodeProposal)
    (hslot : g.nextUpgradeProposal = some p) :
    match (download env g).1 with
    | .ok _ => (download env g).2.nextUpgradeProposal = none
    | .error _ => (download env g).2.nextUpgradeProposal = some p := by
  by_cases hurls : p.DownloadUrls = []
  · unfold download
    simp only [hslot, hurls, List.length_nil, Nat.le_refl, if_true]
  · cases hfetch : (fetched env g p.DownloadUrls).1 with
    | some e =>
      rw [download_of_fetch_error env g p e hslot hurls hfetch]
      dsimp only
      exact (core_slot (fetched_core env g p.DownloadUrls)).trans hslot
    | none =>
      have hcore := core_slot (fetched_core env g p.DownloadUrls)
      unfold download
      have hlen : ¬ p.DownloadUrls.length ≤ 0 := by
        intro h
        exact hurls (List.length_eq_zero.mp (Nat.le_zero.mp h))
      unfold fetched at hfetch hcore
      simp only [hslot, hlen, if_false, hfetch, checkFileHash_state]
      generalize Retry (handle env p.DownloadUrls) backoffWait 5 ([], g) = R at hfetch hcore ⊢
      by_cases hc : (checkFileHash env R.2.2 R.2.1 p.CheckHash).1 = false
      · simp only [hc, if_true]
        exact hcore.trans hslot
      · have hc' : (checkFileHash env R.2.2 R.2.1 p.CheckHash).1 = true := by simpa using hc
        simp only [hc', Bool.true_eq_false, if_false]
        have hdc := decompress_core env (R.2.2.emit (Effect.openRead R.2.1)) R.2.1
        have hpc := probe_core env (decompress env (R.2.2.emit (Effect.openRead R.2.1)) R.2.1).2
          (Join [(decompress env (R.2.2.emit (Effect.openRead R.2.1)) R.2.1).1, lit "axiom"])
        cases hv : (getAxiomLedgerCurrentVersion env
            (decompress env (R.2.2.emit (Effect.openRead R.2.1)) R.2.1).2
            (Join [(decompress env (R.2.2.emit (Effect.openRead R.2.1)) R.2.1).1, lit "axiom"])).1 with
        | error e =>
          dsimp only
          rw [core_slot hpc.1, core_slot hdc.1]
          exact hcore.trans hslot
        | ok version => rfl


theorem listenEvents_running (env : Env) (signals : List Signal) (g : Guardian) :
    (listenEvents env g signals).1 = true := by
  induction signals generalizing g with
  | nil => rfl
  | cons s rest ih =>
    unfold listenEvents
    cases s with
    | ctxDone => simp only [listenStep, if_true]; exact ih g
    | log data => simp only [listenStep, if_true]; exact ih _

theorem listenEvents_ctxDone (env : Env) (n : Nat) (g : Guardian) :
    listenEvents env g (List.replicate n Signal.ctxDone) = (true, g) := by
  induction n with
  | zero => rfl
  | succ n ih =>
    rw [List.replicate_succ]
    unfold listenEvents
    simp only [listenStep, if_true]
    exact ih

theorem Appends.getElem? {S : Effect → Bool} {g g' : Guardian} (h : Appends S g g') (i : Nat)
    (hi : i < g.clock) : g'.trace[i]? = g.trace[i]? := by
  obtain ⟨es, he, _⟩ := h
  rw [he]
  exact List.getElem?_append_left hi

theorem cycle_slot (env : Env) (g : Guardian) (p : NodeProposal) (v : Bytes)
    (hprobe : (getAxiomLedgerCurrentVersion env g (Join [g.Config.AxiomPath, lit "axiom"])).1 = .ok v)
    (hnew : ¬ ((getNextUpgradeVersion g).1 ≠ [] ∧ v = (getNextUpgradeVersion g).1))
    (hslot : g.nextUpgradeProposal = some p) :
    match (download env (beforeDownload env g)).1 with
    | .ok _ => (downloadAndRestart env g).2.nextUpgradeProposal = none
    | .error _ => (downloadAndRestart env g).2.nextUpgradeProposal = some p := by
  have hb := beforeDownload_facts env g
  have hd := download_slot env (beforeDownload env g) p (hb.2.2.1.trans hslot)
  rw [cycle_of_proceed env g v hprobe hnew]
  cases hr : (download env (beforeDownload env g)).1 with
  | error e =>
    rw [hr] at hd
    exact hd
  | ok path =>
    rw [hr] at hd
    dsimp only at hd ⊢
    have hf := (restart_frame env (download env (beforeDownload env g)).2 path).1
    cases hres : (restart env (download env (beforeDownload env g)).2 path).1 with
    | none => dsimp only; rw [hf]; exact hd
    | some e => dsimp only; rw [hf]; exact hd

theorem cycle_attempts_of_proceed (env : Env) (g : Guardian) (p : NodeProposal) (v : Bytes)
    (hprobe : (getAxiomLedgerCurrentVersion env g (Join [g.Config.AxiomPath, lit "axiom"])).1 = .ok v)
    (hnew : ¬ ((getNextUpgradeVersion g).1 ≠ [] ∧ v = (getNextUpgradeVersion g).1))
    (hslot : g.nextUpgradeProposal = some p) (hurls : p.DownloadUrls ≠ []) :
    attempts g + 1 ≤ attempts (downloadAndRestart env g).2 := by
  have hb := beforeDownload_facts env g
  have hatt : attempts (beforeDownload env g) = attempts g := hb.2.2.2.2 isAttempt (fun _ => rfl)
  have hda := download_attempts env (beforeDownload env g) p (hb.2.2.1.trans hslot) hurls
  have hd : attempts g + 1 ≤ attempts (download env (beforeDownload env g)).2 := by
    cases hfs : firstSuccess env (beforeDownload env g) p.DownloadUrls with
    | none => rw [hfs] at hda; dsimp only at hda; omega
    | some k => rw [hfs] at hda; dsimp only at hda; omega
  rw [cycle_of_proceed env g v hprobe hnew]
  cases hr : (download env (beforeDownload env g)).1 with
  | error e => exact hd
  | ok path =>
    dsimp only
    have hf := (restart_frame env (download env (beforeDownload env g)).2 path).2.2.count isAttempt
      isAttempt_of_restartEffect
    unfold attempts at hd ⊢
    cases hres : (restart env (download env (beforeDownload env g)).2 path).1 with
    | none => dsimp only; rw [hf]; exact hd
    | some e => dsimp only; rw [hf]; exact hd


/-! ## Theorems -/

/-- C1. For every initial slot value and every finite sequence of event
payloads handled in order by `handleProposalLog`, the pending-upgrade slot
afterwards is the proposal decoded from the last payload that decodes to a
node-upgrade proposal with status approved, or the initial slot value if
there is no such payload; nothing else of the engine state changes. Only
the position in the sequence enters: neither `ID` nor `BlockNumber` does. -/
theorem pending_slot_is_last_actionable (env : Env) (g : Guardian) (logs : List Bytes) :
    (logs.foldl (handleProposalLog env) g).nextUpgradeProposal =
        (match (logs.filterMap (fun data => (env.unmarshal data).filter
            (fun p => p.PType = NodeUpgrade ∧ p.Status = Approved))).getLast? with
          | some p => some p
          | none => g.nextUpgradeProposal) ∧
      logs.foldl (handleProposalLog env) g =
        { g with nextUpgradeProposal := (logs.foldl (handleProposalLog env) g).nextUpgradeProposal } := by
  rw [foldl_handleProposalLog]
  exact ⟨rfl, rfl⟩

/-- C2, as stated, fails. The store has no applied-version record, so the
record read from it is the empty string, and the running service reports an
empty version (`axiom version: ` and a newline): the two are equal, yet the
cycle fetches the pending artifact and invokes the restart procedure. -/
theorem equal_versions_cycle_fetches_and_restarts :
    (getAxiomLedgerCurrentVersion (mockEnv [] (fun _ => 1)) (mockGuardian [] (some mockProposal))
        (Join [(mockGuardian [] (some mockProposal)).Config.AxiomPath, lit "axiom"])).1 = .ok [] ∧
      (getNextUpgradeVersion (mockGuardian [] (some mockProposal))).1 = [] ∧
      fetches (downloadAndRestart (mockEnv [] (fun _ => 1))
        (mockGuardian [] (some mockProposal))).2 =
          fetches (mockGuardian [] (some mockProposal)) + 1 ∧
      restarts (downloadAndRestart (mockEnv [] (fun _ => 1))
        (mockGuardian [] (some mockProposal))).2 =
          restarts (mockGuardian [] (some mockProposal)) + 1 := by
  decide

/-- C2, amended. For every engine state in which the version probe of the
running service succeeds and the applied-version record read from the store
is non-empty and equals the probed version, one call of `downloadAndRestart`
performs zero network fetches and zero invocations of the restart
procedure (and ends as up to date). -/
theorem up_to_date_cycle_is_noop (env : Env) (g : Guardian) (v : Bytes)
    (hprobe : (getAxiomLedgerCurrentVersion env g (Join [g.Config.AxiomPath, lit "axiom"])).1 = .ok v)
    (hstore : (getNextUpgradeVersion g).1 = v) (hne : v ≠ []) :
    fetches (downloadAndRestart env g).2 = fetches g ∧
      restarts (downloadAndRestart env g).2 = restarts g ∧
      (downloadAndRestart env g).1 = CycleResult.upToDate := by
  rw [up_to_date_cycle env g v hprobe hstore hne]
  refine ⟨?_, ?_, rfl⟩
  · exact probe_count env g _ isFetch (fun _ => rfl)
  · exact probe_count env g _ isRestart (fun _ => rfl)

theorem up_to_date_cycle_is_noop_witness :
    fetches (downloadAndRestart (mockEnv (lit "v1") (fun _ => 1))
        (mockGuardian [(nextUpgradeVersion, lit "v1")] (some mockProposal))).2 =
          fetches (mockGuardian [(nextUpgradeVersion, lit "v1")] (some mockProposal)) ∧
      restarts (downloadAndRestart (mockEnv (lit "v1") (fun _ => 1))
        (mockGuardian [(nextUpgradeVersion, lit "v1")] (some mockProposal))).2 =
          restarts (mockGuardian [(nextUpgradeVersion, lit "v1")] (some mockProposal)) ∧
      (downloadAndRestart (mockEnv (lit "v1") (fun _ => 1))
        (mockGuardian [(nextUpgradeVersion, lit "v1")] (some mockProposal))).1 =
          CycleResult.upToDate :=
  up_to_date_cycle_is_noop (mockEnv (lit "v1") (fun _ => 1))
    (mockGuardian [(nextUpgradeVersion, lit "v1")] (some mockProposal)) (lit "v1")
    (by decide) (by decide) (by decide)

/-- C3. For every readable file with byte content `content` and every
expected-hash string `h`, `checkFileHash` returns true if and only if `h` is
the lowercase hexadecimal encoding of the SHA-256 digest of the content:
the string `%x` prints, two digits of `0123456789abcdef` per byte. So it
succeeds on the digest of the artifact and fails on every other string. -/
theorem checkFileHash_iff_digest (env : Env) (g : Guardian) (filePath h content : Bytes)
    (hfile : g.files.get filePath = some content)
    (hopen : env.openRead filePath = true) (hread : env.readAll filePath = true) :
    ((checkFileHash env g filePath h).1 = true ↔ h = hexEncode (env.sha256 content)) ∧
      (hexEncode (env.sha256 content)).length = 2 * (env.sha256 content).length ∧
      ∀ c ∈ hexEncode (env.sha256 content), isLowerHex c = true := by
  refine ⟨?_, hexEncode_length _, hexEncode_isLowerHex _⟩
  unfold checkFileHash
  simp only [hfile, hopen, hread]
  by_cases hh : hexEncode (env.sha256 content) = h
  · simp [hh]
  · simp [hh]
    exact fun e => hh e.symm

theorem checkFileHash_iff_digest_witness :
    (((checkFileHash (mockEnv [] (fun _ => 1))
          { mockGuardian [] none with files := [(lit "/g/download/axiom.tgz", [1, 2, 3])] }
          (lit "/g/download/axiom.tgz") (lit "0a0b")).1 = true ↔
        lit "0a0b" = hexEncode ((mockEnv [] (fun _ => 1)).sha256 [1, 2, 3])) ∧
      (hexEncode ((mockEnv [] (fun _ => 1)).sha256 [1, 2, 3])).length =
        2 * ((mockEnv [] (fun _ => 1)).sha256 [1, 2, 3]).length ∧
      ∀ c ∈ hexEncode ((mockEnv [] (fun _ => 1)).sha256 [1, 2, 3]), isLowerHex c = true) :=
  checkFileHash_iff_digest (mockEnv [] (fun _ => 1))
    { mockGuardian [] none with files := [(lit "/g/download/axiom.tgz", [1, 2, 3])] }
    (lit "/g/download/axiom.tgz") (lit "0a0b") [1, 2, 3] (by decide) (by decide) (by decide)

/-- C4, at the failing input. The pending proposal expects the digest `0a0b`;
the staged path still holds the full archive `[1, 2, 3, 4, 5]` of that
digest, and the mirror serves the truncated body `[1, 2, 3]`, whose digest
`00` differs from `CheckHash`. The fetch succeeds; `handle` opens the staged
file without `O_TRUNC`, so the file is the body followed by the old tail,
`[1, 2, 3, 4, 5]` again; `checkFileHash` hashes that file and passes, and the
cycle ends as done with an unpack directory created, the restart procedure
invoked and the version `v2` written under the applied-version key. -/
theorem truncated_artifact_over_stale_file_is_installed :
    staleGuardian.nextUpgradeProposal = some mockProposal ∧
      mockProposal.CheckHash = lit "0a0b" ∧
      staleGuardian.files.get (lit "/g/download/axiom.tgz") = some [1, 2, 3, 4, 5] ∧
      truncatedEnv.httpGet 0 (lit "http://m2/axiom.tgz") = .response 200 [1, 2, 3] true ∧
      hexEncode (truncatedEnv.sha256 [1, 2, 3]) = lit "00" ∧
      (fetched truncatedEnv (beforeDownload truncatedEnv staleGuardian)
        mockProposal.DownloadUrls).1 = none ∧
      (fetched truncatedEnv (beforeDownload truncatedEnv staleGuardian)
        mockProposal.DownloadUrls).2.2.files.get (lit "/g/download/axiom.tgz") =
          some [1, 2, 3, 4, 5] ∧
      (downloadAndRestart truncatedEnv staleGuardian).1 = CycleResult.done ∧
      unpacks (downloadAndRestart truncatedEnv staleGuardian).2 = unpacks staleGuardian + 1 ∧
      restarts (downloadAndRestart truncatedEnv staleGuardian).2 = restarts staleGuardian + 1 ∧
      staleGuardian.DB.get nextUpgradeVersion = none ∧
      (downloadAndRestart truncatedEnv staleGuardian).2.DB.get nextUpgradeVersion =
        some (lit "v2") := by
  decide

/-- The hash verification on the staged file. For every cycle that fetches an
artifact (the probe of the running service succeeds, the version check lets
the cycle proceed, the fetch stage succeeds) and leaves at `filePath` a file
whose SHA-256 hex digest differs from the `CheckHash` of the pending
proposal: the cycle ends in the failure `hash check failed`, `decompress` is
not called (no unpack directory), the restart procedure is not invoked, and
the durable store, the applied-version key with it, is as before the cycle.
The staged file is the fetched body when the path held nothing longer
(`staged_content`). -/
theorem hash_mismatch_cycle_fails (env : Env) (g : Guardian) (p : NodeProposal) (v : Bytes)
    (hprobe : (getAxiomLedgerCurrentVersion env g (Join [g.Config.AxiomPath, lit "axiom"])).1 = .ok v)
    (hnew : ¬ ((getNextUpgradeVersion g).1 ≠ [] ∧ v = (getNextUpgradeVersion g).1))
    (hslot : g.nextUpgradeProposal = some p) (hurls : p.DownloadUrls ≠ [])
    (hfetch : (fetched env (beforeDownload env g) p.DownloadUrls).1 = none)
    (hdigest : stagedDigest env (beforeDownload env g) p.DownloadUrls ≠ some p.CheckHash) :
    (downloadAndRestart env g).1 = CycleResult.downloadError Err.hashCheck ∧
      unpacks (downloadAndRestart env g).2 = unpacks g ∧
      restarts (downloadAndRestart env g).2 = restarts g ∧
      (downloadAndRestart env g).2.DB = g.DB ∧
      (downloadAndRestart env g).2.DB.get nextUpgradeVersion =
        g.DB.get nextUpgradeVersion := by
  have hb := beforeDownload_facts env g
  have hd := download_of_hash_mismatch env (beforeDownload env g) p (hb.2.2.1.trans hslot) hurls
    hfetch hdigest
  have hfa := fetched_appends env (beforeDownload env g) p.DownloadUrls
  have hdb : (downloadAndRestart env g).2.DB = g.DB := by
    rw [cycle_of_proceed env g v hprobe hnew, hd]
    exact (core_DB (fetched_core env (beforeDownload env g) p.DownloadUrls)).trans hb.2.1
  refine ⟨?_, ?_, ?_, hdb, by rw [hdb]⟩
  · rw [cycle_of_proceed env g v hprobe hnew, hd]
  · rw [cycle_of_proceed env g v hprobe hnew, hd]
    unfold unpacks
    dsimp only
    rw [emit_count, hfa.count isUnpack (by intro x hx; cases x <;> simp_all [fetchEffect, isUnpack]),
      hb.2.2.2.2 isUnpack (fun _ => rfl)]
    rfl
  · exact cycle_restarts_of_download_error env g Err.hashCheck (by rw [hd])


theorem hash_mismatch_cycle_fails_witness :
    stagedDigest (mockEnv (lit "v1") (fun _ => 1))
        (beforeDownload (mockEnv (lit "v1") (fun _ => 1))
          (mockGuardian [] (some { mockProposal with CheckHash := lit "ffff" })))
        mockProposal.DownloadUrls = some (lit "0a0b") ∧
      (downloadAndRestart (mockEnv (lit "v1") (fun _ => 1))
        (mockGuardian [] (some { mockProposal with CheckHash := lit "ffff" }))).1 =
          CycleResult.downloadError Err.hashCheck ∧
      unpacks (downloadAndRestart (mockEnv (lit "v1") (fun _ => 1))
        (mockGuardian [] (some { mockProposal with CheckHash := lit "ffff" }))).2 =
          unpacks (mockGuardian [] (some { mockProposal with CheckHash := lit "ffff" })) ∧
      restarts (downloadAndRestart (mockEnv (lit "v1") (fun _ => 1))
        (mockGuardian [] (some { mockProposal with CheckHash := lit "ffff" }))).2 =
          restarts (mockGuardian [] (some { mockProposal with CheckHash := lit "ffff" })) ∧
      (downloadAndRestart (mockEnv (lit "v1") (fun _ => 1))
        (mockGuardian [] (some { mockProposal with CheckHash := lit "ffff" }))).2.DB =
          (mockGuardian [] (some { mockProposal with CheckHash := lit "ffff" })).DB ∧
      (downloadAndRestart (mockEnv (lit "v1") (fun _ => 1))
        (mockGuardian [] (some { mockProposal with CheckHash := lit "ffff" }))).2.DB.get
          nextUpgradeVersion =
        (mockGuardian [] (some { mockProposal with CheckHash := lit "ffff" })).DB.get
          nextUpgradeVersion :=
  ⟨by decide,
    hash_mismatch_cycle_fails (mockEnv (lit "v1") (fun _ => 1))
      (mockGuardian [] (some { mockProposal with CheckHash := lit "ffff" }))
      { mockProposal with CheckHash := lit "ffff" } (lit "v1")
      (by decide) (by decide) rfl (by decide) (by decide) (by decide)⟩

/-- C5. Fetch attempts run one after another until the first success, at most
five in all. With `firstSuccess` the first of the attempts 0 to 4 that
succeeds: if there is one, numbered `k`, `download` makes exactly `k + 1`
attempts (five when four failures precede a success) and proceeds to the
hash verification; if the first five attempts all fail, `download` makes
exactly five attempts, starts no hash verification and returns the error of
the fifth, and the cycle does not invoke the restart procedure. -/
theorem download_retries_until_first_success (env : Env) (g : Guardian) (p : NodeProposal)
    (hslot : g.nextUpgradeProposal = some p) (hurls : p.DownloadUrls ≠ []) :
    match firstSuccess env g p.DownloadUrls with
    | some k =>
      attempts (download env g).2 = attempts g + (k + 1) ∧ k + 1 ≤ 5 ∧
        hashChecks (download env g).2 = hashChecks g + 1
    | none =>
      attempts (download env g).2 = attempts g + 5 ∧
        hashChecks (download env g).2 = hashChecks g ∧
        (∃ e, attemptOutcome env g p.DownloadUrls 4 = some e ∧ (download env g).1 = .error e) ∧
        restarts (downloadAndRestart env g).2 = restarts g :=
  download_attempts env g p hslot hurls

theorem download_retries_until_first_success_witness :
    match firstSuccess (mockEnv [] (fun k => if k < 4 then 0 else 1))
        (mockGuardian [] (some mockProposal)) mockProposal.DownloadUrls with
    | some k =>
      attempts (download (mockEnv [] (fun k => if k < 4 then 0 else 1))
          (mockGuardian [] (some mockProposal))).2 =
        attempts (mockGuardian [] (some mockProposal)) + (k + 1) ∧ k + 1 ≤ 5 ∧
        hashChecks (download (mockEnv [] (fun k => if k < 4 then 0 else 1))
          (mockGuardian [] (some mockProposal))).2 =
        hashChecks (mockGuardian [] (some mockProposal)) + 1
    | none =>
      attempts (download (mockEnv [] (fun k => if k < 4 then 0 else 1))
          (mockGuardian [] (some mockProposal))).2 =
        attempts (mockGuardian [] (some mockProposal)) + 5 ∧
        hashChecks (download (mockEnv [] (fun k => if k < 4 then 0 else 1))
          (mockGuardian [] (some mockProposal))).2 =
        hashChecks (mockGuardian [] (some mockProposal)) ∧
        (∃ e, attemptOutcome (mockEnv [] (fun k => if k < 4 then 0 else 1))
            (mockGuardian [] (some mockProposal)) mockProposal.DownloadUrls 4 = some e ∧
          (download (mockEnv [] (fun k => if k < 4 then 0 else 1))
            (mockGuardian [] (some mockProposal))).1 = .error e) ∧
        restarts (downloadAndRestart (mockEnv [] (fun k => if k < 4 then 0 else 1))
          (mockGuardian [] (some mockProposal))).2 =
        restarts (mockGuardian [] (some mockProposal)) :=
  download_retries_until_first_success (mockEnv [] (fun k => if k < 4 then 0 else 1)) (mockGuardian [] (some mockProposal))
    mockProposal rfl (by decide)

/-- C6, as stated, fails. The mock proposal has two mirrors, the first always
answers 500 and the second always serves the archive with the expected
digest, probe and restart work; when the five random picks all select the
first mirror, the cycle ends with the download error of status 500 after
five attempts: no restart, no version written. -/
theorem five_picks_of_dead_mirror_fail_cycle :
    mockProposal.DownloadUrls = [lit "http://m1/axiom.tgz", lit "http://m2/axiom.tgz"] ∧
      (∀ k, (mockEnv (lit "v1") (fun _ => 0)).httpGet k (lit "http://m1/axiom.tgz") = .response 500 [] true) ∧
      (∀ k, (mockEnv (lit "v1") (fun _ => 0)).httpGet k (lit "http://m2/axiom.tgz") = .response 200 [1, 2, 3] true) ∧
      hexEncode ((mockEnv (lit "v1") (fun _ => 0)).sha256 [1, 2, 3]) = mockProposal.CheckHash ∧
      (downloadAndRestart (mockEnv (lit "v1") (fun _ => 0)) (mockGuardian [] (some mockProposal))).1 = CycleResult.downloadError (Err.status 500) ∧
      attempts (downloadAndRestart (mockEnv (lit "v1") (fun _ => 0)) (mockGuardian [] (some mockProposal))).2 = 5 ∧
      restarts (downloadAndRestart (mockEnv (lit "v1") (fun _ => 0)) (mockGuardian [] (some mockProposal))).2 = 0 ∧
      (downloadAndRestart (mockEnv (lit "v1") (fun _ => 0)) (mockGuardian [] (some mockProposal))).2.DB.get nextUpgradeVersion = none :=
  ⟨rfl, fun _ => rfl, fun _ => rfl, by decide, by decide, by decide, by decide, by decide⟩

/-- C6, amended. A pending proposal has exactly two mirror URLs; the mirror
numbered `w` always serves an archive whose SHA-256 hex digest equals
`CheckHash`, the other always answers HTTP 500; the random source, the
staging directory, the scripts and the reconnect work, the version check
lets the cycle proceed, the staged file held nothing longer than the
archive, and the unpacked artifact reports the non-empty version `V`. Then
for every sequence of random picks: if one of the first five picks selects
the working mirror, the first of them at attempt `k`, the cycle succeeds
after `k + 1` attempts, the applied-version key holds `V` and the restart
procedure is invoked exactly once; if all five picks select the failing
mirror, the cycle fails with the error of status 500 after five attempts,
the store is unchanged and the restart procedure is not invoked. -/
theorem two_mirror_cycle (env : Env) (g : Guardian) (p : NodeProposal)
    (u0 u1 archive v V : Bytes) (w client sub : Nat) (picks : Nat → Nat)
    (hslot : g.nextUpgradeProposal = some p) (hurls : p.DownloadUrls = [u0, u1]) (hw : w < 2)
    (hgood : ∀ k, env.httpGet k ([u0, u1].getD w []) = .response 200 archive true)
    (hbad : ∀ k, ∃ body complete,
      env.httpGet k ([u0, u1].getD (1 - w) []) = .response 500 body complete)
    (hhash : hexEncode (env.sha256 archive) = p.CheckHash)
    (hpicks : ∀ k, env.randInt k 2 = some (picks k))
    (hstaging : ∀ k, env.statStaging k = true ∨ env.mkdirStaging k = true)
    (hopen : ∀ k path, env.openFile k path = true)
    (hstale : ∀ old, g.files.get (stagedPath g ([u0, u1].getD w [])) = some old →
      old.length ≤ archive.length)
    (hread : ∀ path, env.openRead path = true ∧ env.readAll path = true)
    (hstat : ∀ t path, env.stat t path = true)
    (hprobe : (getAxiomLedgerCurrentVersion env g (Join [g.Config.AxiomPath, lit "axiom"])).1 = .ok v)
    (hnew : ¬ ((getNextUpgradeVersion g).1 ≠ [] ∧ v = (getNextUpgradeVersion g).1))
    (hver : ∀ t dir, g.clock < t → ∃ out,
      env.bash t (lit "cd " ++ dir ++ lit " && bash version.sh") = .output out ∧
      parseVersion out = .ok V)
    (hV : V ≠ [])
    (hrestart : ∀ t bin, ∃ out, env.bash t
      (lit "cd " ++ g.Config.AxiomPath ++ lit " && bash restart.sh " ++ bin) = .output out)
    (hdial : env.dial 0 = some client) (hsub : env.subscribeFilterLogs client = some sub) :
    match firstPick picks w with
    | some k =>
      (downloadAndRestart env g).1 = CycleResult.done ∧
        attempts (downloadAndRestart env g).2 = attempts g + (k + 1) ∧
        (downloadAndRestart env g).2.DB.get nextUpgradeVersion = some V ∧
        restarts (downloadAndRestart env g).2 = restarts g + 1
    | none =>
      (downloadAndRestart env g).1 = CycleResult.downloadError (Err.status 500) ∧
        attempts (downloadAndRestart env g).2 = attempts g + 5 ∧
        (downloadAndRestart env g).2.DB = g.DB ∧
        restarts (downloadAndRestart env g).2 = restarts g := by
  have hb := beforeDownload_facts env g
  have hslot' := hb.2.2.1.trans hslot
  have hne : p.DownloadUrls ≠ [] := by rw [hurls]; simp
  have hfp := firstSuccess_eq_firstPick env (beforeDownload env g) u0 u1 archive w picks hw hpicks
    hstaging hopen hgood hbad
  have hcyc := cycle_of_proceed env g v hprobe hnew
  have hda := download_appends env (beforeDownload env g)
  have hatt : attempts (beforeDownload env g) = attempts g := hb.2.2.2.2 isAttempt (fun _ => rfl)
  have hres : restarts (beforeDownload env g) = restarts g := hb.2.2.2.2 isRestart (fun _ => rfl)
  have hdres : restarts (download env (beforeDownload env g)).2 = restarts g := by
    rw [← hres]
    exact hda.count isRestart isRestart_of_downloadEffect
  have hc5 := download_attempts env (beforeDownload env g) p hslot' hne
  rw [hurls] at hc5
  rw [hfp] at hc5
  cases hk : firstPick picks w with
  | none =>
    rw [hk] at hc5
    dsimp only at hc5 ⊢
    obtain ⟨h1, _, ⟨e, he1, he2⟩, _⟩ := hc5
    have ho := two_mirror_outcome env (beforeDownload env g) u0 u1 archive w picks hw hpicks
      hstaging hopen hgood hbad 4
    have hp4 : ¬ picks 4 % 2 = w := by
      intro hc
      rw [if_pos hc] at ho
      rw [ho] at he1
      cases he1
    rw [if_neg hp4] at ho
    rw [ho] at he1
    injection he1 with he1
    subst he1
    rw [hcyc, he2]
    dsimp only
    refine ⟨rfl, by rw [h1, hatt], ?_, hdres⟩
    rw [download_DB]
    exact hb.2.1
  | some k =>
    rw [hk] at hc5
    dsimp only at hc5 ⊢
    have hstale' : ∀ old, (beforeDownload env g).files.get
        (stagedPath (beforeDownload env g) ([u0, u1].getD w [])) = some old →
        old.length ≤ archive.length := by
      unfold stagedPath
      rw [hb.1, hb.2.2.2.1]
      exact hstale
    obtain ⟨hf1, hf2, hf3⟩ := two_mirror_fetched env (beforeDownload env g) u0 u1 archive w picks
      k hw hpicks hstaging hopen hgood hbad hstale' hk
    have hclock : g.clock < (beforeDownload env g).clock := by
      unfold beforeDownload getNextUpgradeVersion
      show g.clock < (getAxiomLedgerCurrentVersion env g _).2.clock
      rw [probe_ok_state env g _ v hprobe]
      simp [Guardian.clock]
    obtain ⟨path, hd1, hd2, _⟩ := download_success env (beforeDownload env g) p V hslot' hne
      (by rw [hurls]; exact hf1)
      (by
        rw [hurls]
        unfold stagedDigest
        rw [hf2, hf3, Option.map_some', hhash])
      hread hstat (fun t dir ht => hver t dir (by omega))
    have hv' : (download env (beforeDownload env g)).2.nextUpgradeVersion ≠ [] := by
      rw [hd2]; exact hV
    have hcfg : (download env (beforeDownload env g)).2.Config = g.Config := by
      have := (download_tail env (beforeDownload env g) p hslot' hne (by rw [hurls]; exact hf1)).2.2
      exact this.trans hb.1
    obtain ⟨out, hout⟩ := hrestart (download env (beforeDownload env g)).2.clock
      (Join [path, lit "axiom"])
    have hr := restart_of_ran env (download env (beforeDownload env g)).2 path out hv'
      (hstat _ _) (by rw [hcfg]; exact hout)
    have hrf := reconnect_frame env
      { (download env (beforeDownload env g)).2.emit (Effect.exec Cmd.restart
          (lit "cd " ++ (download env (beforeDownload env g)).2.Config.AxiomPath ++
            lit " && bash restart.sh " ++ Join [path, lit "axiom"])) with
        DB := (download env (beforeDownload env g)).2.DB.put nextUpgradeVersion
          (download env (beforeDownload env g)).2.nextUpgradeVersion }
    have hrok := reconnect_ok env
      { (download env (beforeDownload env g)).2.emit (Effect.exec Cmd.restart
          (lit "cd " ++ (download env (beforeDownload env g)).2.Config.AxiomPath ++
            lit " && bash restart.sh " ++ Join [path, lit "axiom"])) with
        DB := (download env (beforeDownload env g)).2.DB.put nextUpgradeVersion
          (download env (beforeDownload env g)).2.nextUpgradeVersion } client sub hdial hsub
    rw [hcyc, hd1]
    dsimp only
    rw [hr, hrok]
    dsimp only
    refine ⟨rfl, ?_, ?_, ?_⟩
    · unfold attempts
      rw [hrf.2.2.2.2.count isAttempt isAttempt_of_reconnectEffect]
      show ((download env (beforeDownload env g)).2.emit _).count isAttempt = _
      rw [emit_count]
      have := hc5.1
      unfold attempts at this hatt
      rw [this, hatt]
      rfl
    · rw [hrf.1]
      show ((download env (beforeDownload env g)).2.DB.put nextUpgradeVersion
        (download env (beforeDownload env g)).2.nextUpgradeVersion).get nextUpgradeVersion = _
      rw [Store.get_put_self, hd2]
    · unfold restarts
      rw [hrf.2.2.2.2.count isRestart isRestart_of_reconnectEffect]
      show ((download env (beforeDownload env g)).2.emit _).count isRestart = _
      rw [emit_count]
      unfold restarts at hdres
      rw [hdres]
      rfl


theorem two_mirror_cycle_witness :
    firstPick (fun k => if k < 2 then 0 else 1) 1 = some 2 ∧
      (downloadAndRestart (mockEnv (lit "v1") (fun k => if k < 2 then 0 else 1)) (mockGuardian [] (some mockProposal))).1 = CycleResult.done ∧
      attempts (downloadAndRestart (mockEnv (lit "v1") (fun k => if k < 2 then 0 else 1)) (mockGuardian [] (some mockProposal))).2 = attempts (mockGuardian [] (some mockProposal)) + (2 + 1) ∧
      (downloadAndRestart (mockEnv (lit "v1") (fun k => if k < 2 then 0 else 1)) (mockGuardian [] (some mockProposal))).2.DB.get nextUpgradeVersion = some (lit "v2") ∧
      restarts (downloadAndRestart (mockEnv (lit "v1") (fun k => if k < 2 then 0 else 1)) (mockGuardian [] (some mockProposal))).2 = restarts (mockGuardian [] (some mockProposal)) + 1 :=
  ⟨by decide,
    two_mirror_cycle (mockEnv (lit "v1") (fun k => if k < 2 then 0 else 1)) (mockGuardian [] (some mockProposal)) mockProposal
      (lit "http://m1/axiom.tgz") (lit "http://m2/axiom.tgz") [1, 2, 3] (lit "v1") (lit "v2")
      1 1 1 (fun k => if k < 2 then 0 else 1)
      rfl rfl (by decide) (fun _ => rfl) (fun _ => ⟨[], true, rfl⟩) (by decide) (fun _ => rfl)
      (fun _ => Or.inl rfl) (fun _ _ => rfl) (fun old h => by cases h) (fun _ => ⟨rfl, rfl⟩)
      (fun _ _ => rfl) (by decide) (by decide)
      (fun t _ ht =>
        ⟨lit "axiom version: v2\ncommit: 0\n",
          if_neg (Nat.pos_iff_ne_zero.mp (show 0 < t from ht)), by decide⟩)
      (by decide)
      (fun t _ => by
        by_cases h0 : t = 0
        · exact ⟨lit "axiom version: v1\n", if_pos h0⟩
        · exact ⟨lit "axiom version: v2\ncommit: 0\n", if_neg h0⟩)
      rfl rfl⟩

/-- C7, at the failing input. The configured start height is 1 and the store
holds the cursor 2^63 as eight big-endian bytes: the maximum of the two is
2^63, `getNewestFromBlock` returns the negative number -2^63, the result of
`big.NewInt(int64(nextFromBlock))`, and `fetchHistoryLog` passes it to the
historical query. -/
theorem stored_cursor_beyond_int64_resumes_negative :
    (getNewestFromBlock (NewGuardian mockConfig 0 [(nextFromBlockKey, putUint64 (2 ^ 63))])).map
        (fun r => r.1) = some (some (-9223372036854775808)) ∧
      ((max (2 ^ 63) mockConfig.Subscribe.FromBlock : Nat) : Int) = 9223372036854775808 ∧
      (fetchHistoryLog (mockEnv [] (fun _ => 0))
        (NewGuardian mockConfig 0 [(nextFromBlockKey, putUint64 (2 ^ 63))])).map
        (fun r => r.2.trace) = some [Effect.filterLogs (some (-9223372036854775808)) none] := by
  decide


/-- Below 2^63 the cursor is resumed as intended (`getNewestFromBlock_max`):
with the stored cursor 500 and the configured start 1 the engine resumes
from 500, and that is the from-block of the historical query. -/
theorem stored_cursor_500_resumes_from_500 :
    (getNewestFromBlock (NewGuardian mockConfig 0 [(nextFromBlockKey, putUint64 500)])).map
        (fun r => r.1) = some (some 500) ∧
      (fetchHistoryLog (mockEnv [] (fun _ => 0))
        (NewGuardian mockConfig 0 [(nextFromBlockKey, putUint64 500)])).map
        (fun r => r.2.count (fun e => e = Effect.filterLogs (some 500) none)) = some 1 := by
  decide

/-- C8, as stated, fails. The version script prints
`axiom version: 1.0: beta` and a newline: the substring from the first
`": "` to the next newline is `1.0: beta`, the probe returns `1.0`. -/
theorem version_token_ends_at_second_separator :
    (mockEnv (lit "1.0: beta") (fun _ => 0)).stat 0 (Join [Dir (lit "/ax/axiom"), lit "version.sh"]) = true ∧
      (mockEnv (lit "1.0: beta") (fun _ => 0)).bash 0 (lit "cd /ax && bash version.sh") =
        .output (lit "axiom version: 1.0: beta\n") ∧
      specVersion (lit "axiom version: 1.0: beta\n") = some (lit "1.0: beta") ∧
      (getAxiomLedgerCurrentVersion (mockEnv (lit "1.0: beta") (fun _ => 0)) (mockGuardian [] none) (lit "/ax/axiom")).1 = .ok (lit "1.0") := by
  decide

/-- C8, amended. For every output string `out` of the version-probe procedure:
if `out` contains `": "`, the version `getAxiomLedgerCurrentVersion` returns
is the substring of `out` that starts right after the first `": "` and ends
right before the next `": "` or newline, whichever comes first, or at the
end of `out` if there is neither; if `out` contains no `": "` the probe
returns an error. (`afterFirst_some`, `afterFirst_none` and `upTo_first`
state what `afterFirst` and `upTo` are.) -/
theorem version_probe_returns_token (env : Env) (g : Guardian) (p out : Bytes)
    (hstat : env.stat g.clock (Join [Dir p, lit "version.sh"]) = true)
    (hbash : env.bash g.clock (lit "cd " ++ Dir p ++ lit " && bash version.sh") = .output out) :
    (getAxiomLedgerCurrentVersion env g p).1 =
      match afterFirst (lit ": ") out with
      | some rest => .ok (upTo (lit "\n") (upTo (lit ": ") rest))
      | none => .error Err.noSeparator := by
  rw [probe_ok env g p out hstat hbash]
  exact parseVersion_eq out

theorem version_probe_returns_token_witness :
    afterFirst (lit ": ") (lit "axiom version: 1.0: beta\n") = some (lit "1.0: beta\n") ∧
      (getAxiomLedgerCurrentVersion (mockEnv (lit "1.0: beta") (fun _ => 0)) (mockGuardian [] none) (lit "/ax/axiom")).1 =
        .ok (upTo (lit "\n") (upTo (lit ": ") (lit "1.0: beta\n"))) :=
  ⟨by decide,
    version_probe_returns_token (mockEnv (lit "1.0: beta") (fun _ => 0)) (mockGuardian [] none) (lit "/ax/axiom") (lit "axiom version: 1.0: beta\n")
      (by decide) (by decide)⟩

/-- C9. For every call of `restart` with a non-empty provisional next version:
if `restart.sh` is missing, or its run fails, `restart` returns an error and
the durable store is unchanged; if `restart.sh` exists and exits zero, the
applied-version key of the store holds exactly that version afterwards,
whatever the outcome of the reconnect that follows. -/
theorem restart_records_version_after_script (env : Env) (g : Guardian) (path : Bytes) (hV : g.nextUpgradeVersion ≠ []) :
    match env.stat g.clock (Join [g.Config.AxiomPath, lit "restart.sh"]),
      env.bash g.clock (lit "cd " ++ g.Config.AxiomPath ++ lit " && bash restart.sh " ++
        Join [path, lit "axiom"]) with
    | false, _ => (restart env g path).1 = some Err.stat ∧ (restart env g path).2.DB = g.DB
    | true, .failed => (restart env g path).1 = some Err.exec ∧ (restart env g path).2.DB = g.DB
    | true, .output _ =>
      (restart env g path).2.DB.get nextUpgradeVersion = some g.nextUpgradeVersion ∧
        (restart env g path).2.DB = g.DB.put nextUpgradeVersion g.nextUpgradeVersion := by
  cases hs : env.stat g.clock (Join [g.Config.AxiomPath, lit "restart.sh"]) with
  | false =>
    dsimp only
    rw [restart_of_missing env g path hV hs]
    exact ⟨rfl, rfl⟩
  | true =>
    cases hb : env.bash g.clock (lit "cd " ++ g.Config.AxiomPath ++ lit " && bash restart.sh " ++
        Join [path, lit "axiom"]) with
    | failed =>
      dsimp only
      rw [restart_of_failed env g path hV hs hb]
      exact ⟨rfl, rfl⟩
    | output out =>
      dsimp only
      rw [restart_of_ran env g path out hV hs hb]
      have := (reconnect_frame env
        { g.emit (Effect.exec Cmd.restart (lit "cd " ++ g.Config.AxiomPath ++
            lit " && bash restart.sh " ++ Join [path, lit "axiom"])) with
          DB := g.DB.put nextUpgradeVersion g.nextUpgradeVersion }).1
      rw [this]
      exact ⟨Store.get_put_self _ _ _, rfl⟩

theorem restart_records_version_after_script_witness :
    ({ mockGuardian [] none with nextUpgradeVersion := lit "v2" } : Guardian).nextUpgradeVersion ≠ [] ∧
      (restart (mockEnv (lit "v1") (fun _ => 0)) { mockGuardian [] none with nextUpgradeVersion := lit "v2" } (lit "/g/download/axiom-17")).2.DB.get nextUpgradeVersion =
        some (lit "v2") ∧
      (restart (mockEnv (lit "v1") (fun _ => 0)) { mockGuardian [] none with nextUpgradeVersion := lit "v2" } (lit "/g/download/axiom-17")).2.DB =
        ({ mockGuardian [] none with nextUpgradeVersion := lit "v2" } : Guardian).DB.put nextUpgradeVersion (lit "v2") :=
  ⟨by decide,
    restart_records_version_after_script (mockEnv (lit "v1") (fun _ => 0)) { mockGuardian [] none with nextUpgradeVersion := lit "v2" } (lit "/g/download/axiom-17") (by decide)⟩

/-- C10. The cursor key and the applied-version key of the durable store are
written only by the install step after the restart procedure has exited
zero: backfill (`fetchHistoryLog`), event handling (`handleProposalLog`),
the version probe, the version check (`getNextUpgradeVersion`) and
`download` leave the whole store unchanged; `restart` never changes the
cursor key, and it either leaves the store unchanged or `restart.sh` was
found and exited zero and the only change is the write of the next version
under the applied-version key. -/
theorem store_written_only_after_restart_script (env : Env) (g : Guardian) (data p path : Bytes) :
    (∀ r, fetchHistoryLog env g = some r → r.2.DB = g.DB) ∧
      (handleProposalLog env g data).DB = g.DB ∧
      (getAxiomLedgerCurrentVersion env g p).2.DB = g.DB ∧
      (getNextUpgradeVersion g).2.DB = g.DB ∧
      (download env g).2.DB = g.DB ∧
      (restart env g path).2.DB.get nextFromBlockKey = g.DB.get nextFromBlockKey ∧
      ((restart env g path).2.DB = g.DB ∨
        ∃ out, env.stat g.clock (Join [g.Config.AxiomPath, lit "restart.sh"]) = true ∧
          env.bash g.clock (lit "cd " ++ g.Config.AxiomPath ++ lit " && bash restart.sh " ++
            Join [path, lit "axiom"]) = .output out ∧
          (restart env g path).2.DB = g.DB.put nextUpgradeVersion g.nextUpgradeVersion) := by
  refine ⟨fun r h => fetchHistoryLog_DB env g r h, handleProposalLog_DB env g data,
    probe_DB env g p, rfl, download_DB env g, ?_, restart_DB env g path⟩
  rcases restart_DB env g path with h | ⟨_, _, _, h⟩
  · rw [h]
  · rw [h]
    exact Store.get_put_other _ _ _ _ (by decide)

/-- C11, as stated, fails. In the first cycle the five picks select the dead
mirror: the download is initiated (five attempts) and the fetch fails. In
the second the fetch succeeds and the hash verification fails. Both cycles
return with the pending-upgrade slot still holding the proposal. -/
theorem failed_download_keeps_pending_slot :
    attempts (downloadAndRestart (mockEnv (lit "v1") (fun _ => 0)) (mockGuardian [] (some mockProposal))).2 = attempts (mockGuardian [] (some mockProposal)) + 5 ∧
      (downloadAndRestart (mockEnv (lit "v1") (fun _ => 0)) (mockGuardian [] (some mockProposal))).1 = CycleResult.downloadError (Err.status 500) ∧
      (downloadAndRestart (mockEnv (lit "v1") (fun _ => 0)) (mockGuardian [] (some mockProposal))).2.nextUpgradeProposal = some mockProposal ∧
      attempts (downloadAndRestart (mockEnv (lit "v1") (fun _ => 1)) (mockGuardian [] (some { mockProposal with CheckHash := lit "ffff" }))).2 = attempts (mockGuardian [] (some { mockProposal with CheckHash := lit "ffff" })) + 1 ∧
      (downloadAndRestart (mockEnv (lit "v1") (fun _ => 1)) (mockGuardian [] (some { mockProposal with CheckHash := lit "ffff" }))).1 = CycleResult.downloadError Err.hashCheck ∧
      (downloadAndRestart (mockEnv (lit "v1") (fun _ => 1)) (mockGuardian [] (some { mockProposal with CheckHash := lit "ffff" }))).2.nextUpgradeProposal = some { mockProposal with CheckHash := lit "ffff" } := by
  decide

/-- C11, amended. For every cycle in which a download is initiated for the
pending proposal (the probe of the running service succeeds, the version
check lets the cycle proceed, the mirror list is not empty, so `download`
makes at least one fetch attempt): when the cycle returns, the
pending-upgrade slot is empty if `download` returned the unpack path (the
fetch, the hash verification and the version probe of the unpacked artifact
succeeded), whether or not the install afterwards succeeds, and it still
holds the proposal if `download` returned an error; in particular if the
fetch failed or the digest of the staged artifact differs from `CheckHash`. -/
theorem pending_slot_cleared_by_successful_download (env : Env) (g : Guardian) (p : NodeProposal) (v : Bytes)
    (hprobe : (getAxiomLedgerCurrentVersion env g (Join [g.Config.AxiomPath, lit "axiom"])).1 = .ok v)
    (hnew : ¬ ((getNextUpgradeVersion g).1 ≠ [] ∧ v = (getNextUpgradeVersion g).1))
    (hslot : g.nextUpgradeProposal = some p) (hurls : p.DownloadUrls ≠ []) :
    attempts g + 1 ≤ attempts (downloadAndRestart env g).2 ∧
      (match (download env (beforeDownload env g)).1 with
        | .ok _ => (downloadAndRestart env g).2.nextUpgradeProposal = none
        | .error _ => (downloadAndRestart env g).2.nextUpgradeProposal = some p) ∧
      ((fetched env (beforeDownload env g) p.DownloadUrls).1 ≠ none →
        (downloadAndRestart env g).2.nextUpgradeProposal = some p) ∧
      ((fetched env (beforeDownload env g) p.DownloadUrls).1 = none →
        stagedDigest env (beforeDownload env g) p.DownloadUrls ≠ some p.CheckHash →
        (downloadAndRestart env g).2.nextUpgradeProposal = some p) := by
  have hb := beforeDownload_facts env g
  have hs := cycle_slot env g p v hprobe hnew hslot
  refine ⟨cycle_attempts_of_proceed env g p v hprobe hnew hslot hurls, hs, ?_, ?_⟩
  · intro hf
    cases hfe : (fetched env (beforeDownload env g) p.DownloadUrls).1 with
    | none => exact absurd hfe hf
    | some e =>
      rw [download_of_fetch_error env (beforeDownload env g) p e (hb.2.2.1.trans hslot) hurls hfe]
        at hs
      exact hs
  · intro hf hd
    rw [download_of_hash_mismatch env (beforeDownload env g) p (hb.2.2.1.trans hslot) hurls hf hd]
      at hs
    exact hs

theorem pending_slot_cleared_by_successful_download_witness :
    attempts (mockGuardian [] (some mockProposal)) + 1 ≤ attempts (downloadAndRestart (mockEnv (lit "v1") (fun _ => 1)) (mockGuardian [] (some mockProposal))).2 ∧
      (downloadAndRestart (mockEnv (lit "v1") (fun _ => 1)) (mockGuardian [] (some mockProposal))).2.nextUpgradeProposal = none ∧
      ((fetched (mockEnv (lit "v1") (fun _ => 1)) (beforeDownload (mockEnv (lit "v1") (fun _ => 1)) (mockGuardian [] (some mockProposal))) mockProposal.DownloadUrls).1 ≠ none →
        (downloadAndRestart (mockEnv (lit "v1") (fun _ => 1)) (mockGuardian [] (some mockProposal))).2.nextUpgradeProposal = some mockProposal) ∧
      ((fetched (mockEnv (lit "v1") (fun _ => 1)) (beforeDownload (mockEnv (lit "v1") (fun _ => 1)) (mockGuardian [] (some mockProposal))) mockProposal.DownloadUrls).1 = none →
        stagedDigest (mockEnv (lit "v1") (fun _ => 1)) (beforeDownload (mockEnv (lit "v1") (fun _ => 1)) (mockGuardian [] (some mockProposal))) mockProposal.DownloadUrls ≠
          some mockProposal.CheckHash →
        (downloadAndRestart (mockEnv (lit "v1") (fun _ => 1)) (mockGuardian [] (some mockProposal))).2.nextUpgradeProposal = some mockProposal) :=
  pending_slot_cleared_by_successful_download (mockEnv (lit "v1") (fun _ => 1)) (mockGuardian [] (some mockProposal)) mockProposal (lit "v1")
    (by decide) (by decide) rfl (by decide)

/-- C12, on the code. The step of the loop of `listenEvents` on a done
context leaves the loop running, with the engine unchanged, and so does the
step on a log: after any sequence of signals the loop is still running, and
after any number of context-done signals the engine is as it was. -/
theorem listenEvents_never_exits (env : Env) (g : Guardian) (signals : List Signal) (n : Nat) :
    listenStep env g Signal.ctxDone = (true, g) ∧
      (listenEvents env g signals).1 = true ∧
      listenEvents env g (List.replicate n Signal.ctxDone) = (true, g) :=
  ⟨rfl, listenEvents_running env signals g, listenEvents_ctxDone env n g⟩

/-- C14. For every engine state whose pending-upgrade slot is empty and whose
version probe of the running service succeeds with version `v`:
`downloadAndRestart` performs no fetch (and no fetch attempt), and it
invokes the restart procedure if and only if the stored applied-version `s`
is non-empty, differs from `v`, and `restart.sh` exists; in that case the
command is `cd <AxiomPath> && bash restart.sh axiom`, the binary path being
the join of the empty download path with `axiom`, and if the script exits
zero the applied-version key is rewritten with `s`. -/
theorem empty_slot_cycle_restarts_stored_version (env : Env) (g : Guardian) (v : Bytes)
    (hslot : g.nextUpgradeProposal = none)
    (hprobe : (getAxiomLedgerCurrentVersion env g (Join [g.Config.AxiomPath, lit "axiom"])).1 = .ok v) :
    fetches (downloadAndRestart env g).2 = fetches g ∧
      attempts (downloadAndRestart env g).2 = attempts g ∧
      restarts (downloadAndRestart env g).2 = restarts g +
        (if (getNextUpgradeVersion g).1 ≠ [] ∧ (getNextUpgradeVersion g).1 ≠ v ∧
            env.stat (beforeDownload env g).clock (Join [g.Config.AxiomPath, lit "restart.sh"]) = true
          then 1 else 0) ∧
      ((getNextUpgradeVersion g).1 ≠ [] → (getNextUpgradeVersion g).1 ≠ v →
        env.stat (beforeDownload env g).clock (Join [g.Config.AxiomPath, lit "restart.sh"]) = true →
        (downloadAndRestart env g).2.trace[(beforeDownload env g).clock]? =
            some (Effect.exec Cmd.restart
              (lit "cd " ++ g.Config.AxiomPath ++ lit " && bash restart.sh " ++ lit "axiom")) ∧
          ∀ out, env.bash (beforeDownload env g).clock
              (lit "cd " ++ g.Config.AxiomPath ++ lit " && bash restart.sh " ++ lit "axiom") =
                .output out →
            (downloadAndRestart env g).2.DB =
                g.DB.put nextUpgradeVersion (getNextUpgradeVersion g).1 ∧
              (downloadAndRestart env g).2.DB.get nextUpgradeVersion =
                some (getNextUpgradeVersion g).1) := by
  have hb := beforeDownload_facts env g
  have hfe : fetches (beforeDownload env g) = fetches g := hb.2.2.2.2 isFetch (fun _ => rfl)
  have hat : attempts (beforeDownload env g) = attempts g := hb.2.2.2.2 isAttempt (fun _ => rfl)
  have hre : restarts (beforeDownload env g) = restarts g := hb.2.2.2.2 isRestart (fun _ => rfl)
  have hver : (beforeDownload env g).nextUpgradeVersion = (getNextUpgradeVersion g).1 := by
    unfold beforeDownload getNextUpgradeVersion
    simp only [probe_DB]
  have hjoin : Join [([] : Bytes), lit "axiom"] = lit "axiom" := by decide
  by_cases hskip : (getNextUpgradeVersion g).1 ≠ [] ∧ v = (getNextUpgradeVersion g).1
  · have hup := up_to_date_cycle env g v hprobe hskip.2.symm (hskip.2 ▸ hskip.1)
    have hc : ¬ ((getNextUpgradeVersion g).1 ≠ [] ∧ (getNextUpgradeVersion g).1 ≠ v ∧
        env.stat (beforeDownload env g).clock (Join [g.Config.AxiomPath, lit "restart.sh"]) = true) :=
      fun h => h.2.1 hskip.2.symm
    rw [if_neg hc, hup]
    refine ⟨probe_count env g _ isFetch (fun _ => rfl), probe_count env g _ isAttempt (fun _ => rfl),
      probe_count env g _ isRestart (fun _ => rfl), ?_⟩
    intro _ h2
    exact absurd hskip.2.symm h2
  · have hcyc := cycle_of_proceed env g v hprobe hskip
    rw [download_of_empty_slot env (beforeDownload env g) (hb.2.2.1.trans hslot)] at hcyc
    dsimp only at hcyc
    have hstate : (downloadAndRestart env g).2 = (restart env (beforeDownload env g) []).2 := by
      rw [hcyc]
      cases (restart env (beforeDownload env g) []).1 <;> rfl
    rw [hstate]
    have hrf := restart_frame env (beforeDownload env g) []
    refine ⟨?_, ?_, ?_, ?_⟩
    · unfold fetches at hfe ⊢
      rw [hrf.2.2.count isFetch isFetch_of_restartEffect, hfe]
    · unfold attempts at hat ⊢
      rw [hrf.2.2.count isAttempt isAttempt_of_restartEffect, hat]
    · by_cases hv : (getNextUpgradeVersion g).1 = []
      · rw [restart_of_empty env _ _ (hver.trans hv), if_neg (fun h => h.1 hv)]
        exact hre
      · have hv' : (beforeDownload env g).nextUpgradeVersion ≠ [] := by rw [hver]; exact hv
        have hne : (getNextUpgradeVersion g).1 ≠ v := by
          intro h
          exact hskip ⟨hv, h.symm⟩
        cases hs : env.stat (beforeDownload env g).clock
            (Join [g.Config.AxiomPath, lit "restart.sh"]) with
        | false =>
          rw [restart_of_missing env _ _ hv' (by rw [hb.1]; exact hs), if_neg (by simp)]
          exact hre
        | true =>
          rw [if_pos ⟨hv, hne, rfl⟩]
          cases hbash : env.bash (beforeDownload env g).clock
              (lit "cd " ++ (beforeDownload env g).Config.AxiomPath ++ lit " && bash restart.sh " ++
                Join [[], lit "axiom"]) with
          | failed =>
            rw [restart_of_failed env _ _ hv' (by rw [hb.1]; exact hs) hbash]
            unfold restarts at hre ⊢
            rw [emit_count, hre]
            rfl
          | output out =>
            rw [restart_of_ran env _ _ out hv' (by rw [hb.1]; exact hs) hbash]
            unfold restarts at hre ⊢
            rw [(reconnect_frame env _).2.2.2.2.count isRestart isRestart_of_reconnectEffect]
            show ((beforeDownload env g).emit _).count isRestart = _
            rw [emit_count, hre]
            rfl
    · intro hv hne hs
      have hv' : (beforeDownload env g).nextUpgradeVersion ≠ [] := by rw [hver]; exact hv
      have hs' : env.stat (beforeDownload env g).clock
          (Join [(beforeDownload env g).Config.AxiomPath, lit "restart.sh"]) = true := by
        rw [hb.1]; exact hs
      have hlen : (beforeDownload env g).clock <
          ((beforeDownload env g).emit (Effect.exec Cmd.restart
            (lit "cd " ++ g.Config.AxiomPath ++ lit " && bash restart.sh " ++ lit "axiom"))).clock := by
        simp [Guardian.clock]
      have hget : ((beforeDownload env g).emit (Effect.exec Cmd.restart
            (lit "cd " ++ g.Config.AxiomPath ++ lit " && bash restart.sh " ++ lit "axiom"))).trace[
              (beforeDownload env g).clock]? =
          some (Effect.exec Cmd.restart
            (lit "cd " ++ g.Config.AxiomPath ++ lit " && bash restart.sh " ++ lit "axiom")) := by
        simp [Guardian.clock]
      cases hbash : env.bash (beforeDownload env g).clock
          (lit "cd " ++ g.Config.AxiomPath ++ lit " && bash restart.sh " ++ lit "axiom") with
      | failed =>
        have hbash' : env.bash (beforeDownload env g).clock
            (lit "cd " ++ (beforeDownload env g).Config.AxiomPath ++ lit " && bash restart.sh " ++
              Join [[], lit "axiom"]) = .failed := by
          rw [hb.1, hjoin]; exact hbash
        rw [restart_of_failed env _ _ hv' hs' hbash', hb.1, hjoin]
        exact ⟨hget, fun out h => by cases h⟩
      | output out =>
        have hbash' : env.bash (beforeDownload env g).clock
            (lit "cd " ++ (beforeDownload env g).Config.AxiomPath ++ lit " && bash restart.sh " ++
              Join [[], lit "axiom"]) = .output out := by
          rw [hb.1, hjoin]; exact hbash
        rw [restart_of_ran env _ _ out hv' hs' hbash', hb.1, hjoin]
        have hrf2 := reconnect_frame env
          { (beforeDownload env g).emit (Effect.exec Cmd.restart
              (lit "cd " ++ g.Config.AxiomPath ++ lit " && bash restart.sh " ++ lit "axiom")) with
            DB := (beforeDownload env g).DB.put nextUpgradeVersion
              (beforeDownload env g).nextUpgradeVersion }
        refine ⟨?_, ?_⟩
        · rw [hrf2.2.2.2.2.getElem? _ hlen]
          exact hget
        · intro out' _
          rw [hrf2.1]
          show (beforeDownload env g).DB.put nextUpgradeVersion
              (beforeDownload env g).nextUpgradeVersion = _ ∧ _
          rw [hb.2.1, hver]
          exact ⟨rfl, Store.get_put_self _ _ _⟩

theorem empty_slot_cycle_restarts_stored_version_witness :
    (getNextUpgradeVersion (mockGuardian [(nextUpgradeVersion, lit "v0")] none)).1 = lit "v0" ∧
      fetches (downloadAndRestart (mockEnv (lit "v1") (fun _ => 1)) (mockGuardian [(nextUpgradeVersion, lit "v0")] none)).2 = fetches (mockGuardian [(nextUpgradeVersion, lit "v0")] none) ∧
      attempts (downloadAndRestart (mockEnv (lit "v1") (fun _ => 1)) (mockGuardian [(nextUpgradeVersion, lit "v0")] none)).2 = attempts (mockGuardian [(nextUpgradeVersion, lit "v0")] none) ∧
      restarts (downloadAndRestart (mockEnv (lit "v1") (fun _ => 1)) (mockGuardian [(nextUpgradeVersion, lit "v0")] none)).2 = restarts (mockGuardian [(nextUpgradeVersion, lit "v0")] none) + 1 ∧
      (downloadAndRestart (mockEnv (lit "v1") (fun _ => 1)) (mockGuardian [(nextUpgradeVersion, lit "v0")] none)).2.trace[1]? =
        some (Effect.exec Cmd.restart (lit "cd /ax && bash restart.sh axiom")) ∧
      (downloadAndRestart (mockEnv (lit "v1") (fun _ => 1)) (mockGuardian [(nextUpgradeVersion, lit "v0")] none)).2.DB.get nextUpgradeVersion = some (lit "v0") :=
  ⟨by decide,
    (empty_slot_cycle_restarts_stored_version (mockEnv (lit "v1") (fun _ => 1)) (mockGuardian [(nextUpgradeVersion, lit "v0")] none) (lit "v1") rfl (by decide)).1,
    (empty_slot_cycle_restarts_stored_version (mockEnv (lit "v1") (fun _ => 1)) (mockGuardian [(nextUpgradeVersion, lit "v0")] none) (lit "v1") rfl (by decide)).2.1,
    (empty_slot_cycle_restarts_stored_version (mockEnv (lit "v1") (fun _ => 1)) (mockGuardian [(nextUpgradeVersion, lit "v0")] none) (lit "v1") rfl (by decide)).2.2.1,
    ((empty_slot_cycle_restarts_stored_version (mockEnv (lit "v1") (fun _ => 1)) (mockGuardian [(nextUpgradeVersion, lit "v0")] none) (lit "v1") rfl (by decide)).2.2.2
      (by decide) (by decide) rfl).1,
    (((empty_slot_cycle_restarts_stored_version (mockEnv (lit "v1") (fun _ => 1)) (mockGuardian [(nextUpgradeVersion, lit "v0")] none) (lit "v1") rfl (by decide)).2.2.2
      (by decide) (by decide) rfl).2 (lit "axiom version: v2\ncommit: 0\n") rfl).2⟩

end AxiomGuardian
